import Mathlib

/-!
clean-arc-go: the user CRUD handlers of `main.go`

A shallow embedding of the five HTTP handlers registered in `main` and of the
global `DataStore` they share, followed by the properties of the handlers.

Modelling conventions.

* `map[uint64]User` is a list of key/record pairs. A Go map corresponds to a
  list whose keys are pairwise distinct; `storeGet` is `DataStore[k]` (with
  its `ok` flag as `Option`), `storeSet` is `DataStore[k] = u` and `storeLen`
  is `len(DataStore)`. The order of the list stands for the unspecified
  iteration order of the map.
* `uint64` and `int64` values are `Nat` and `Int`; conversions wrap explicitly
  (`uint64`, `wrapInt64`). `int` is taken to be 64 bits wide.
* `ctx.Bind(&usrIn)` is the gin body binder: its outcome (an error, or the
  bound `User` value) is the `Option User` argument of a handler.
* `strings.EqualFold` is a parameter of the create handler; `ParseInt` models
  `strconv.ParseInt(s, 10, 64)`.
-/

namespace CleanArc

/-! ## Data model -/

/-- The `User` struct: `Id uint64`, `Name`, `Email`, and the soft-delete flag
`Delete`. -/
structure User where
  Id : Nat
  Name : String
  Email : String
  Delete : Bool
deriving DecidableEq, Repr

/-- The `Data interface{}` field of a response: absent, one user, or a slice of
users. -/
inductive Payload where
  | null : Payload
  | user (u : User) : Payload
  | users (us : List User) : Payload
deriving DecidableEq, Repr

/-- The `Response` struct. -/
structure Response where
  Message : String
  Data : Payload
deriving DecidableEq, Repr

/-- The global `DataStore`, a `map[uint64]User`. -/
abbrev DataStore := List (Nat × User)

/-- What a handler does: the HTTP status it writes, the JSON body, and the
`DataStore` it leaves behind. -/
structure Result where
  status : Nat
  body : Response
  store : DataStore
deriving DecidableEq, Repr

/-! ## Machine integers -/

/-- The value `2^63`. -/
def two63 : Nat := 9223372036854775808

/-- Conversion `uint64(i)` of a signed value: reduction modulo `2^64`. -/
def uint64 (i : Int) : Nat := (i % 18446744073709551616).toNat

/-- Two's-complement wrap of a mathematical integer into `int64`. -/
def wrapInt64 (i : Int) : Int :=
  (i + 9223372036854775808) % 18446744073709551616 - 9223372036854775808

/-! ## Library functions -/

/-- Value of a decimal digit, `none` for any other character. -/
def digitVal (c : Char) : Option Nat :=
  if 48 ≤ c.toNat ∧ c.toNat ≤ 57 then some (c.toNat - 48) else none

/-- Decimal digits to a number, most significant first, starting from `acc`;
`none` as soon as a character is not a digit. -/
def parseDigits : List Char → Nat → Option Nat
  | [], acc => some acc
  | c :: cs, acc =>
    match digitVal c with
    | none => none
    | some d => parseDigits cs (acc * 10 + d)

/-- Model of `strconv.ParseInt(s, 10, 64)`: an optional sign, then one or more
decimal digits, the value lying in `[-2^63, 2^63 - 1]`; `none` is `err != nil`
(syntax or range error). -/
def ParseInt (s : String) : Option Int :=
  match s.toList with
  | [] => none
  | c :: cs =>
    let neg : Bool := c = '-'
    let rest : List Char := if c = '+' ∨ c = '-' then cs else c :: cs
    match rest with
    | [] => none
    | d :: ds =>
      match parseDigits (d :: ds) 0 with
      | none => none
      | some un =>
        if neg then
          if un > 9223372036854775808 then none else some (-(un : Int))
        else
          if un ≥ 9223372036854775808 then none else some (un : Int)

/-- Lower-case code of an ASCII letter, the code itself otherwise. -/
def lowerCode (c : Char) : Nat :=
  if 65 ≤ c.toNat ∧ c.toNat ≤ 90 then c.toNat + 32 else c.toNat

/-- ASCII case-insensitive equality; on ASCII strings this is what
`strings.EqualFold` computes. Used to run the handlers on concrete inputs. -/
def asciiEqualFold (s t : String) : Bool :=
  s.toList.map lowerCode == t.toList.map lowerCode

/-! ## Map operations -/

/-- The lookup `u, ok := DataStore[k]`. -/
def storeGet : DataStore → Nat → Option User
  | [], _ => none
  | (k', u) :: rest, k => if k' = k then some u else storeGet rest k

/-- The assignment `DataStore[k] = u`: replaces the record under an existing
key, adds the key otherwise. -/
def storeSet : DataStore → Nat → User → DataStore
  | [], k, u => [(k, u)]
  | (k', u') :: rest, k, u =>
    if k' = k then (k, u) :: rest else (k', u') :: storeSet rest k u

/-- The builtin `len(DataStore)`. -/
def storeLen (ds : DataStore) : Nat := ds.length

/-- The keys of the map. -/
def storeKeys (ds : DataStore) : List Nat := ds.map Prod.fst

/-! ## The program -/

/-- The two records `main` seeds `DataStore` with. -/
def seedStore : DataStore :=
  [ (1, { Id := 1, Name := "John Doe", Email := "jhondoe@gmail.com", Delete := false }),
    (2, { Id := 2, Name := "Jane Doe", Email := "janedow@gmail.com", Delete := false }) ]

/-- The handler of `GET /users`. -/
def getUsers (ds : DataStore) : Result :=
  let users : List User := (ds.filter (fun p => !p.2.Delete)).map Prod.snd
  { status := 200, body := { Message := "Success get users", Data := Payload.users users },
    store := ds }

/-- The handler of `GET /user`; `id` is `ctx.Query("id")`. -/
def getUser (ds : DataStore) (id : String) : Result :=
  if id = "" then
    { status := 400, body := { Message := "Invalid query params", Data := Payload.null },
      store := ds }
  else
    match ParseInt id with
    | none =>
      { status := 400, body := { Message := "Invalid id params", Data := Payload.null },
        store := ds }
    | some idUint =>
      match storeGet ds (uint64 idUint) with
      | none =>
        { status := 404, body := { Message := "User not found", Data := Payload.null },
          store := ds }
      | some user =>
        if user.Delete then
          { status := 404, body := { Message := "User not found", Data := Payload.null },
            store := ds }
        else
          { status := 200, body := { Message := "Success get user", Data := Payload.user user },
            store := ds }

/-- The handler of `POST /user`; `bound` is the outcome of `ctx.Bind(&usrIn)`
and `EqualFold` stands for `strings.EqualFold`. -/
def postUser (EqualFold : String → String → Bool) (ds : DataStore) (bound : Option User) :
    Result :=
  match bound with
  | none =>
    { status := 400, body := { Message := "Invalid payload", Data := Payload.null },
      store := ds }
  | some usrIn =>
    if usrIn.Email = "" ∨ usrIn.Name = "" then
      { status := 400, body := { Message := "Invalid payload", Data := Payload.null },
        store := ds }
    else if ds.any (fun p => EqualFold p.2.Email usrIn.Email) then
      { status := 400, body := { Message := "Email already registered ", Data := Payload.null },
        store := ds }
    else
      let idInsert : Int := wrapInt64 ((storeLen ds : Int) + 1)
      let usrIn : User := { usrIn with Id := uint64 idInsert }
      { status := 200, body := { Message := "Success create user", Data := Payload.user usrIn },
        store := storeSet ds (uint64 idInsert) usrIn }

/-- The handler of `PUT /user/:id`; `id` is `ctx.Param("id")` and `bound` the
outcome of `ctx.Bind(&usrIn)`. -/
def putUser (ds : DataStore) (id : String) (bound : Option User) : Result :=
  if id = "" then
    { status := 400, body := { Message := "Invalid query params", Data := Payload.null },
      store := ds }
  else
    match ParseInt id with
    | none =>
      { status := 400, body := { Message := "Invalid id params", Data := Payload.null },
        store := ds }
    | some idUint =>
      match bound with
      | none =>
        { status := 400, body := { Message := "Invalid payload", Data := Payload.null },
          store := ds }
      | some usrIn =>
        match storeGet ds (uint64 idUint) with
        | none =>
          { status := 404, body := { Message := "User not found", Data := Payload.null },
            store := ds }
        | some user =>
          if user.Delete then
            { status := 404, body := { Message := "User not found", Data := Payload.null },
              store := ds }
          else if usrIn.Name = "" then
            { status := 400, body := { Message := "Invalid payload", Data := Payload.null },
              store := ds }
          else
            let user : User := { user with Name := usrIn.Name }
            { status := 202, body := { Message := "Success update user", Data := Payload.null },
              store := storeSet ds (uint64 idUint) user }

/-- The handler of `DELETE /user/:id`; `id` is `ctx.Param("id")`. -/
def deleteUser (ds : DataStore) (id : String) : Result :=
  if id = "" then
    { status := 400, body := { Message := "Invalid query params", Data := Payload.null },
      store := ds }
  else
    match ParseInt id with
    | none =>
      { status := 400, body := { Message := "Invalid id params", Data := Payload.null },
        store := ds }
    | some idUint =>
      match storeGet ds (uint64 idUint) with
      | none =>
        { status := 404, body := { Message := "User not found", Data := Payload.null },
          store := ds }
      | some user =>
        if user.Delete then
          { status := 404, body := { Message := "User not found", Data := Payload.null },
            store := ds }
        else
          let user : User := { user with Delete := true }
          { status := 202, body := { Message := "Success delete user", Data := Payload.null },
            store := storeSet ds (uint64 idUint) user }

/-! ## Requests and runs -/

/-- One HTTP request to the server. -/
inductive Request where
  | listUsers : Request
  | getUser (id : String) : Request
  | createUser (bound : Option User) : Request
  | updateUser (id : String) (bound : Option User) : Request
  | deleteUser (id : String) : Request

/-- The router: dispatch of a request to its handler. -/
def handle (EqualFold : String → String → Bool) (ds : DataStore) : Request → Result
  | Request.listUsers => getUsers ds
  | Request.getUser id => getUser ds id
  | Request.createUser bound => postUser EqualFold ds bound
  | Request.updateUser id bound => putUser ds id bound
  | Request.deleteUser id => deleteUser ds id

/-- The store after serving a sequence of requests one after the other. -/
def run (EqualFold : String → String → Bool) (ds : DataStore) : List Request → DataStore
  | [] => ds
  | r :: rs => run EqualFold (handle EqualFold ds r).store rs

/-- A store the server can be in: the seeded store after some finite sequence
of requests. -/
def Reachable (EqualFold : String → String → Bool) (ds : DataStore) : Prop :=
  ∃ rs : List Request, run EqualFold seedStore rs = ds

/-! ## Shape of the reachable stores -/

/-- The shape of a store built from the seed: its keys are `1, ..., n` for `n`
the number of records, and the record under key `k` has `Id = k`. -/
def Inv (ds : DataStore) : Prop :=
  storeKeys ds = List.range' 1 (storeLen ds) ∧ ∀ p ∈ ds, p.2.Id = p.1

/-- The key `uint64(len(DataStore) + 1)` that a successful create writes to. -/
def nextId (ds : DataStore) : Nat := uint64 (wrapInt64 ((storeLen ds : Int) + 1))

/-! ## Decimal numerals -/

/-- The string `s` is the number `n` written in decimal: one or more decimal
digits (no sign) whose positional value is `n`. -/
def DecimalOf (s : String) (n : Nat) : Prop :=
  s.toList ≠ [] ∧ parseDigits s.toList 0 = some n

/-- The string is a base-10 integer: an optional sign `+` or `-` followed by one
or more decimal digits. Written from the words of the specification, not from
the parser. -/
def isDecimalInteger (s : String) : Bool :=
  match s.toList with
  | [] => false
  | c :: cs =>
    let body : List Char := if c = '+' ∨ c = '-' then cs else c :: cs
    !body.isEmpty && body.all (fun d => (digitVal d).isSome)

/-! ## Arithmetic and parsing lemmas -/

theorem uint64_wrapInt64_succ (n : Nat) (h : n < two63) :
    uint64 (wrapInt64 ((n : Int) + 1)) = n + 1 := by
  unfold two63 at h
  unfold uint64 wrapInt64
  omega

theorem ParseInt_ne_empty {id : String} {i : Int} (h : ParseInt id = some i) : id ≠ "" := by
  rintro rfl
  simp [ParseInt] at h

/-! ## Map lemmas -/

theorem storeGet_storeSet_same (ds : DataStore) (k : Nat) (u : User) :
    storeGet (storeSet ds k u) k = some u := by
  induction ds with
  | nil => simp [storeSet, storeGet]
  | cons p rest ih =>
    obtain ⟨k', u'⟩ := p
    by_cases hk : k' = k
    · simp [storeSet, storeGet, hk]
    · simp [storeSet, storeGet, hk, ih]

theorem storeGet_storeSet_other (ds : DataStore) (k k' : Nat) (u : User) (hne : k' ≠ k) :
    storeGet (storeSet ds k u) k' = storeGet ds k' := by
  induction ds with
  | nil => simp [storeSet, storeGet, Ne.symm hne]
  | cons p rest ih =>
    obtain ⟨k0, u0⟩ := p
    by_cases hk : k0 = k
    · subst hk
      simp [storeSet, storeGet, Ne.symm hne]
    · by_cases hk' : k0 = k'
      · subst hk'
        simp [storeSet, storeGet, hk]
      · simp [storeSet, storeGet, hk, hk', ih]

theorem storeGet_eq_none_iff (ds : DataStore) (k : Nat) :
    storeGet ds k = none ↔ k ∉ storeKeys ds := by
  induction ds with
  | nil => simp [storeGet, storeKeys]
  | cons p rest ih =>
    obtain ⟨k0, u0⟩ := p
    by_cases hk : k0 = k
    · simp [storeGet, storeKeys, hk]
    · have ih' : storeGet rest k = none ↔ k ∉ List.map Prod.fst rest := ih
      simp [storeGet, storeKeys, hk, ih', Ne.symm hk]

theorem mem_of_storeGet {ds : DataStore} {k : Nat} {u : User} (h : storeGet ds k = some u) :
    (k, u) ∈ ds := by
  induction ds with
  | nil => simp [storeGet] at h
  | cons p rest ih =>
    obtain ⟨k0, u0⟩ := p
    by_cases hk : k0 = k
    · simp [storeGet, hk] at h
      simp [hk, h]
    · simp [storeGet, hk] at h
      exact List.mem_cons_of_mem _ (ih h)

theorem storeSet_of_absent (ds : DataStore) (k : Nat) (u : User) (h : storeGet ds k = none) :
    storeSet ds k u = ds ++ [(k, u)] := by
  induction ds with
  | nil => simp [storeSet]
  | cons p rest ih =>
    obtain ⟨k0, u0⟩ := p
    by_cases hk : k0 = k
    · simp [storeGet, hk] at h
    · simp [storeGet, hk] at h
      simp [storeSet, hk, ih h]

theorem storeKeys_storeSet_of_present (ds : DataStore) (k : Nat) (u u0 : User)
    (h : storeGet ds k = some u0) : storeKeys (storeSet ds k u) = storeKeys ds := by
  induction ds with
  | nil => simp [storeGet] at h
  | cons p rest ih =>
    obtain ⟨k0, u1⟩ := p
    by_cases hk : k0 = k
    · simp [storeSet, storeKeys, hk]
    · simp [storeGet, hk] at h
      have ih' : List.map Prod.fst (storeSet rest k u) = List.map Prod.fst rest := ih h
      simp [storeSet, storeKeys, hk, ih']

theorem storeLen_eq_length_keys (ds : DataStore) : storeLen ds = (storeKeys ds).length := by
  simp [storeLen, storeKeys]

theorem mem_storeSet {ds : DataStore} {k : Nat} {u : User} {p : Nat × User}
    (h : p ∈ storeSet ds k u) : p = (k, u) ∨ p ∈ ds := by
  induction ds with
  | nil => simp [storeSet] at h; exact Or.inl h
  | cons q rest ih =>
    obtain ⟨k0, u0⟩ := q
    by_cases hk : k0 = k
    · simp only [storeSet, hk, if_true, List.mem_cons] at h
      rcases h with h | h
      · exact Or.inl h
      · exact Or.inr (List.mem_cons_of_mem _ h)
    · simp only [storeSet, hk, if_false, List.mem_cons] at h
      rcases h with h | h
      · exact Or.inr (h ▸ List.mem_cons_self _ _)
      · rcases ih h with h' | h'
        · exact Or.inl h'
        · exact Or.inr (List.mem_cons_of_mem _ h')

theorem storeGet_of_mem_of_nodup {ds : DataStore} {k : Nat} {u : User}
    (hnd : (storeKeys ds).Nodup) (h : (k, u) ∈ ds) : storeGet ds k = some u := by
  induction ds with
  | nil => simp at h
  | cons q rest ih =>
    obtain ⟨k0, u0⟩ := q
    have hnd' : k0 ∉ storeKeys rest ∧ (storeKeys rest).Nodup := by
      simpa [storeKeys] using hnd
    rcases List.mem_cons.mp h with h | h
    · cases h
      simp [storeGet]
    · have hk : k0 ≠ k := by
        rintro rfl
        exact hnd'.1 (List.mem_map_of_mem Prod.fst h)
      simp [storeGet, hk, ih hnd'.2 h]

/-! ## Single-request properties -/

/-- C1. Create success postcondition: on a store of fewer than `2^63` records
(every Go map, `len` being an `int`), a create request whose bound name and
email are non-empty and whose email `EqualFold`s the email of no stored record
is answered 200; the returned record is the bound one with
`Id = len(DataStore) + 1` (soft-deleted records counted), and afterwards the
store maps that id to the returned record. -/
theorem postUser_success (EqualFold : String → String → Bool) (ds : DataStore) (usrIn : User)
    (hlen : storeLen ds < two63) (hname : usrIn.Name ≠ "") (hemail : usrIn.Email ≠ "")
    (hfresh : ∀ p ∈ ds, EqualFold p.2.Email usrIn.Email = false) :
    (postUser EqualFold ds (some usrIn)).status = 200 ∧
    (∃ u : User, (postUser EqualFold ds (some usrIn)).body.Data = Payload.user u ∧
      u.Name = usrIn.Name ∧ u.Email = usrIn.Email ∧ u.Id = storeLen ds + 1 ∧
      storeGet (postUser EqualFold ds (some usrIn)).store (storeLen ds + 1) = some u) := by
  have hany : ds.any (fun p => EqualFold p.2.Email usrIn.Email) = false := by
    rw [List.any_eq_false]
    intro p hp
    simp [hfresh p hp]
  have hid := uint64_wrapInt64_succ (storeLen ds) hlen
  simp only [postUser, hname, hemail, or_self, if_false, hany, hid, Bool.false_eq_true]
  refine ⟨trivial, _, rfl, rfl, rfl, rfl, ?_⟩
  exact storeGet_storeSet_same _ _ _

theorem postUser_success_witness :
    (postUser asciiEqualFold seedStore (some ⟨0, "Alice", "a@x.com", false⟩)).status = 200 ∧
    (∃ u : User,
      (postUser asciiEqualFold seedStore (some ⟨0, "Alice", "a@x.com", false⟩)).body.Data
        = Payload.user u ∧
      u.Name = "Alice" ∧ u.Email = "a@x.com" ∧ u.Id = storeLen seedStore + 1 ∧
      storeGet (postUser asciiEqualFold seedStore (some ⟨0, "Alice", "a@x.com", false⟩)).store
        (storeLen seedStore + 1) = some u) :=
  postUser_success asciiEqualFold seedStore ⟨0, "Alice", "a@x.com", false⟩
    (by decide) (by decide) (by decide) (by decide)

/-- C3. Create fails exactly when it should: with a well-formed body the answer
is 400 if and only if the name is empty, or the email is empty, or some stored
record (soft-deleted or not) has an email that `EqualFold`s the request's; in
every other case the answer is 200. -/
theorem postUser_status_iff (EqualFold : String → String → Bool) (ds : DataStore)
    (usrIn : User) :
    ((postUser EqualFold ds (some usrIn)).status = 400 ↔
      (usrIn.Name = "" ∨ usrIn.Email = "" ∨
        ∃ p ∈ ds, EqualFold p.2.Email usrIn.Email = true)) ∧
    (¬ (usrIn.Name = "" ∨ usrIn.Email = "" ∨
        ∃ p ∈ ds, EqualFold p.2.Email usrIn.Email = true) →
      (postUser EqualFold ds (some usrIn)).status = 200) := by
  by_cases hemail : usrIn.Email = ""
  · simp [postUser, hemail]
  · by_cases hname : usrIn.Name = ""
    · simp [postUser, hname]
    · by_cases hany : ds.any (fun p => EqualFold p.2.Email usrIn.Email) = true
      · have hex : ∃ p ∈ ds, EqualFold p.2.Email usrIn.Email = true := by
          simpa [List.any_eq_true] using hany
        simp [postUser, hemail, hname, hany, hex]
      · have hex : ¬ ∃ p ∈ ds, EqualFold p.2.Email usrIn.Email = true := by
          simpa [List.any_eq_true] using hany
        simp [postUser, hemail, hname, hany, hex]

/-- C6. Get decides on presence and the deleted flag only: for an id string the
handler parses to the key `v = uint64 i`, the answer is 200 with exactly the
record stored under `v` when `v` is a key whose record is not soft-deleted, and
404 when `v` is no key or its record is soft-deleted; the store is unchanged in
both cases. -/
theorem getUser_spec (ds : DataStore) (id : String) (i : Int) (hparse : ParseInt id = some i) :
    (getUser ds id).store = ds ∧
    (∀ u : User, storeGet ds (uint64 i) = some u → u.Delete = false →
      (getUser ds id).status = 200 ∧ (getUser ds id).body.Data = Payload.user u) ∧
    (storeGet ds (uint64 i) = none → (getUser ds id).status = 404) ∧
    (∀ u : User, storeGet ds (uint64 i) = some u → u.Delete = true →
      (getUser ds id).status = 404) := by
  have hid : id ≠ "" := ParseInt_ne_empty hparse
  refine ⟨?_, ?_, ?_, ?_⟩
  · simp only [getUser, hid, if_false, hparse]
    cases hget : storeGet ds (uint64 i) with
    | none => rfl
    | some u => cases hdel : u.Delete <;> simp [hdel]
  · intro u hget hdel
    simp [getUser, hid, hparse, hget, hdel]
  · intro hget
    simp [getUser, hid, hparse, hget]
  · intro u hget hdel
    simp [getUser, hid, hparse, hget, hdel]

theorem getUser_spec_witness :
    (getUser seedStore "2").store = seedStore ∧
    (∀ u : User, storeGet seedStore (uint64 2) = some u → u.Delete = false →
      (getUser seedStore "2").status = 200 ∧ (getUser seedStore "2").body.Data = Payload.user u) ∧
    (storeGet seedStore (uint64 2) = none → (getUser seedStore "2").status = 404) ∧
    (∀ u : User, storeGet seedStore (uint64 2) = some u → u.Delete = true →
      (getUser seedStore "2").status = 404) :=
  getUser_spec seedStore "2" 2 (by decide)

/-- C7. Delete success is a pure flag flip: when the id string parses to a key
`v` whose record `u` is not soft-deleted, the answer is 202 and afterwards the
store holds under `v` the record `u` with `Delete = true` (same id, name and
email), holds under every other key what it held before, and has the same keys
and the same size. -/
theorem deleteUser_success (ds : DataStore) (id : String) (i : Int) (u : User)
    (hparse : ParseInt id = some i) (hget : storeGet ds (uint64 i) = some u)
    (hdel : u.Delete = false) :
    (deleteUser ds id).status = 202 ∧
    storeGet (deleteUser ds id).store (uint64 i) =
      some { Id := u.Id, Name := u.Name, Email := u.Email, Delete := true } ∧
    (∀ k : Nat, k ≠ uint64 i → storeGet (deleteUser ds id).store k = storeGet ds k) ∧
    storeKeys (deleteUser ds id).store = storeKeys ds ∧
    storeLen (deleteUser ds id).store = storeLen ds := by
  have hid : id ≠ "" := ParseInt_ne_empty hparse
  have hst : (deleteUser ds id).store = storeSet ds (uint64 i) { u with Delete := true } := by
    simp [deleteUser, hid, hparse, hget, hdel]
  have hkeys := storeKeys_storeSet_of_present ds (uint64 i) { u with Delete := true } u hget
  refine ⟨?_, ?_, ?_, ?_, ?_⟩
  · simp [deleteUser, hid, hparse, hget, hdel]
  · rw [hst]; exact storeGet_storeSet_same _ _ _
  · intro k hk
    rw [hst]; exact storeGet_storeSet_other _ _ _ _ hk
  · rw [hst]; exact hkeys
  · rw [hst, storeLen_eq_length_keys, hkeys, ← storeLen_eq_length_keys]

theorem deleteUser_success_witness :
    (deleteUser seedStore "1").status = 202 ∧
    storeGet (deleteUser seedStore "1").store (uint64 1) =
      some { Id := 1, Name := "John Doe", Email := "jhondoe@gmail.com", Delete := true } ∧
    (∀ k : Nat, k ≠ uint64 1 → storeGet (deleteUser seedStore "1").store k = storeGet seedStore k) ∧
    storeKeys (deleteUser seedStore "1").store = storeKeys seedStore ∧
    storeLen (deleteUser seedStore "1").store = storeLen seedStore :=
  deleteUser_success seedStore "1" 1
    { Id := 1, Name := "John Doe", Email := "jhondoe@gmail.com", Delete := false }
    (by decide) (by decide) rfl

/-- C9. Update success changes the name only: when the id string parses to a key
`v` whose record `u` is not soft-deleted and the bound body has a non-empty
name (whatever `Id`, `Email` or `Delete` it also carries), the answer is 202
with no data, and afterwards the store holds under `v` the record `u` with the
new name (same id, email and deleted flag), holds under every other key what it
held before, and has the same keys and the same size. -/
theorem putUser_success (ds : DataStore) (id : String) (i : Int) (u usrIn : User)
    (hparse : ParseInt id = some i) (hget : storeGet ds (uint64 i) = some u)
    (hdel : u.Delete = false) (hname : usrIn.Name ≠ "") :
    (putUser ds id (some usrIn)).status = 202 ∧
    (putUser ds id (some usrIn)).body.Data = Payload.null ∧
    storeGet (putUser ds id (some usrIn)).store (uint64 i) =
      some { Id := u.Id, Name := usrIn.Name, Email := u.Email, Delete := u.Delete } ∧
    (∀ k : Nat, k ≠ uint64 i →
      storeGet (putUser ds id (some usrIn)).store k = storeGet ds k) ∧
    storeKeys (putUser ds id (some usrIn)).store = storeKeys ds ∧
    storeLen (putUser ds id (some usrIn)).store = storeLen ds := by
  have hid : id ≠ "" := ParseInt_ne_empty hparse
  have hst : (putUser ds id (some usrIn)).store =
      storeSet ds (uint64 i) { u with Name := usrIn.Name } := by
    simp [putUser, hid, hparse, hget, hdel, hname]
  have hkeys := storeKeys_storeSet_of_present ds (uint64 i) { u with Name := usrIn.Name } u hget
  refine ⟨?_, ?_, ?_, ?_, ?_, ?_⟩
  · simp [putUser, hid, hparse, hget, hdel, hname]
  · simp [putUser, hid, hparse, hget, hdel, hname]
  · rw [hst]; exact storeGet_storeSet_same _ _ _
  · intro k hk
    rw [hst]; exact storeGet_storeSet_other _ _ _ _ hk
  · rw [hst]; exact hkeys
  · rw [hst, storeLen_eq_length_keys, hkeys, ← storeLen_eq_length_keys]

theorem putUser_success_witness :
    (putUser seedStore "2" (some ⟨77, "Janet", "other@x.com", true⟩)).status = 202 ∧
    (putUser seedStore "2" (some ⟨77, "Janet", "other@x.com", true⟩)).body.Data = Payload.null ∧
    storeGet (putUser seedStore "2" (some ⟨77, "Janet", "other@x.com", true⟩)).store (uint64 2) =
      some { Id := 2, Name := "Janet", Email := "janedow@gmail.com", Delete := false } ∧
    (∀ k : Nat, k ≠ uint64 2 →
      storeGet (putUser seedStore "2" (some ⟨77, "Janet", "other@x.com", true⟩)).store k
        = storeGet seedStore k) ∧
    storeKeys (putUser seedStore "2" (some ⟨77, "Janet", "other@x.com", true⟩)).store
      = storeKeys seedStore ∧
    storeLen (putUser seedStore "2" (some ⟨77, "Janet", "other@x.com", true⟩)).store
      = storeLen seedStore :=
  putUser_success seedStore "2" 2
    { Id := 2, Name := "Jane Doe", Email := "janedow@gmail.com", Delete := false }
    ⟨77, "Janet", "other@x.com", true⟩ (by decide) (by decide) rfl (by decide)

/-- C10, as stated, fails: on the seeded store `PUT /user/3` with an empty name
addresses a numeric id that is no key, and the answer is 404, not 400. -/
theorem putUser_empty_name_absent_id :
    ParseInt "3" = some 3 ∧ storeGet seedStore (uint64 3) = none ∧
    (putUser seedStore "3" (some ⟨0, "", "", false⟩)).status = 404 ∧
    (putUser seedStore "3" (some ⟨0, "", "", false⟩)).status ≠ 400 := by
  decide

/-! ## Invariants of the reachable stores -/

theorem nextId_eq (ds : DataStore) (h : storeLen ds < two63) : nextId ds = storeLen ds + 1 :=
  uint64_wrapInt64_succ _ h

theorem Inv_seedStore : Inv seedStore := by
  refine ⟨by decide, ?_⟩
  intro p hp
  simp [seedStore] at hp
  rcases hp with rfl | rfl <;> rfl

theorem Inv.nodup {ds : DataStore} (h : Inv ds) : (storeKeys ds).Nodup := by
  rw [h.1]
  exact List.nodup_range' 1 (storeLen ds)

theorem Inv.next_absent {ds : DataStore} (h : Inv ds) : storeGet ds (storeLen ds + 1) = none := by
  rw [storeGet_eq_none_iff, h.1, List.mem_range'_1]
  omega

theorem Inv.key_le {ds : DataStore} (h : Inv ds) {k : Nat} {u : User}
    (hget : storeGet ds k = some u) : 1 ≤ k ∧ k ≤ storeLen ds := by
  have hmem : k ∈ storeKeys ds := by
    by_contra hn
    rw [(storeGet_eq_none_iff ds k).mpr hn] at hget
    cases hget
  rw [h.1, List.mem_range'_1] at hmem
  omega

theorem storeLen_storeSet_of_absent (ds : DataStore) (k : Nat) (u : User)
    (h : storeGet ds k = none) : storeLen (storeSet ds k u) = storeLen ds + 1 := by
  rw [storeSet_of_absent ds k u h]
  simp [storeLen]

theorem storeLen_storeSet_of_present (ds : DataStore) (k : Nat) (u u0 : User)
    (h : storeGet ds k = some u0) : storeLen (storeSet ds k u) = storeLen ds := by
  rw [storeLen_eq_length_keys, storeKeys_storeSet_of_present ds k u u0 h,
    ← storeLen_eq_length_keys]

theorem storeLen_le_storeSet (ds : DataStore) (k : Nat) (u : User) :
    storeLen ds ≤ storeLen (storeSet ds k u) := by
  cases h : storeGet ds k with
  | none => rw [storeLen_storeSet_of_absent ds k u h]; omega
  | some u0 => rw [storeLen_storeSet_of_present ds k u u0 h]

/-- Overwriting a present key with a record of the right `Id` keeps the shape. -/
theorem Inv.set_present {ds : DataStore} (h : Inv ds) {k : Nat} {u u0 : User}
    (hget : storeGet ds k = some u0) (hid : u.Id = k) : Inv (storeSet ds k u) := by
  refine ⟨?_, ?_⟩
  · rw [storeKeys_storeSet_of_present ds k u u0 hget, storeLen_storeSet_of_present ds k u u0 hget]
    exact h.1
  · intro p hp
    rcases mem_storeSet hp with rfl | hp'
    · exact hid
    · exact h.2 p hp'

/-- Adding the next key with a record of that `Id` keeps the shape. -/
theorem Inv.set_next {ds : DataStore} (h : Inv ds) {u : User} (hid : u.Id = storeLen ds + 1) :
    Inv (storeSet ds (storeLen ds + 1) u) := by
  have habs := h.next_absent
  refine ⟨?_, ?_⟩
  · rw [storeLen_storeSet_of_absent ds _ u habs, storeSet_of_absent ds _ u habs,
      List.range'_1_concat, ← h.1]
    simp [storeKeys, Nat.add_comm]
  · intro p hp
    rcases mem_storeSet hp with rfl | hp'
    · exact hid
    · exact h.2 p hp'

/-- The three things a request can do to the store: nothing; overwrite the
record of a present, not soft-deleted key by one with the same `Id` and
`Email`; or (a successful create) write the bound record, its `Id` set, under
`nextId`. -/
theorem handle_store_cases (EqualFold : String → String → Bool) (ds : DataStore)
    (r : Request) :
    (handle EqualFold ds r).store = ds ∨
    (∃ (k : Nat) (u u' : User), storeGet ds k = some u ∧ u.Delete = false ∧ u'.Id = u.Id ∧
      u'.Email = u.Email ∧ (handle EqualFold ds r).store = storeSet ds k u') ∨
    (∃ usrIn : User, (handle EqualFold ds r).store =
      storeSet ds (nextId ds) { usrIn with Id := nextId ds }) := by
  cases r with
  | listUsers => exact Or.inl rfl
  | getUser id =>
    refine Or.inl ?_
    simp only [handle, getUser]
    split
    · rfl
    · split
      · rfl
      · split
        · rfl
        · split <;> rfl
  | createUser bound =>
    simp only [handle, postUser]
    split
    · exact Or.inl rfl
    · split
      · exact Or.inl rfl
      · split
        · exact Or.inl rfl
        · exact Or.inr (Or.inr ⟨_, rfl⟩)
  | updateUser id bound =>
    simp only [handle, putUser]
    split
    · exact Or.inl rfl
    · split
      · exact Or.inl rfl
      · split
        · exact Or.inl rfl
        · split
          · exact Or.inl rfl
          · rename_i user hget
            split
            · exact Or.inl rfl
            · rename_i hdel
              split
              · exact Or.inl rfl
              · refine Or.inr (Or.inl ⟨_, user, _, hget, by simpa using hdel, ?_, ?_, rfl⟩) <;> rfl
  | deleteUser id =>
    simp only [handle, deleteUser]
    split
    · exact Or.inl rfl
    · split
      · exact Or.inl rfl
      · split
        · exact Or.inl rfl
        · rename_i user hget
          split
          · exact Or.inl rfl
          · rename_i hdel
            refine Or.inr (Or.inl ⟨_, user, _, hget, by simpa using hdel, ?_, ?_, rfl⟩) <;> rfl

theorem storeLen_le_handle (EqualFold : String → String → Bool) (ds : DataStore)
    (r : Request) : storeLen ds ≤ storeLen (handle EqualFold ds r).store := by
  rcases handle_store_cases EqualFold ds r with e | ⟨k, u, u', _, _, _, _, e⟩ | ⟨usrIn, e⟩
  · rw [e]
  · rw [e]; exact storeLen_le_storeSet _ _ _
  · rw [e]; exact storeLen_le_storeSet _ _ _

theorem storeLen_le_run (EqualFold : String → String → Bool) (ds : DataStore)
    (rs : List Request) : storeLen ds ≤ storeLen (run EqualFold ds rs) := by
  induction rs generalizing ds with
  | nil => exact le_refl _
  | cons r rs ih => exact le_trans (storeLen_le_handle EqualFold ds r) (ih _)

theorem Inv.preserved (EqualFold : String → String → Bool) {ds : DataStore} (h : Inv ds)
    (hlen : storeLen ds < two63) (r : Request) : Inv (handle EqualFold ds r).store := by
  rcases handle_store_cases EqualFold ds r with e | ⟨k, u, u', hget, _, hid, _, e⟩ | ⟨usrIn, e⟩
  · rw [e]; exact h
  · rw [e]
    exact h.set_present hget (by rw [hid]; exact h.2 (k, u) (mem_of_storeGet hget))
  · rw [e, nextId_eq ds hlen]
    exact h.set_next rfl

/-- Induction along a run: a property of stores that every request preserves
on stores of the reachable shape holds, together with that shape, at the end
of the run, provided the final store has fewer than `2^63` records. -/
theorem run_induction (EqualFold : String → String → Bool) (Q : DataStore → Prop)
    (hstep : ∀ (ds : DataStore) (r : Request), Inv ds → storeLen ds < two63 → Q ds →
      Q (handle EqualFold ds r).store)
    (ds : DataStore) (rs : List Request) (hinv : Inv ds) (hQ : Q ds)
    (hlen : storeLen (run EqualFold ds rs) < two63) :
    Inv (run EqualFold ds rs) ∧ Q (run EqualFold ds rs) := by
  induction rs generalizing ds with
  | nil => exact ⟨hinv, hQ⟩
  | cons r rs ih =>
    have hle := storeLen_le_run EqualFold ds (r :: rs)
    have hlt : storeLen ds < two63 := lt_of_le_of_lt hle hlen
    exact ih _ (hinv.preserved EqualFold hlt r) (hstep ds r hinv hlt hQ) hlen

theorem Reachable.inv {EqualFold : String → String → Bool} {ds : DataStore}
    (h : Reachable EqualFold ds) (hlen : storeLen ds < two63) : Inv ds := by
  obtain ⟨rs, rfl⟩ := h
  exact (run_induction EqualFold (fun _ => True) (fun _ _ _ _ _ => trivial) seedStore rs
    Inv_seedStore trivial hlen).1

/-- A record once soft-deleted stays soft-deleted under its key. -/
theorem deleted_step (EqualFold : String → String → Bool) (k : Nat) (ds : DataStore)
    (r : Request) (hinv : Inv ds) (hlen : storeLen ds < two63)
    (hQ : ∃ u : User, storeGet ds k = some u ∧ u.Delete = true) :
    ∃ u : User, storeGet (handle EqualFold ds r).store k = some u ∧ u.Delete = true := by
  obtain ⟨u, hget, hdel⟩ := hQ
  rcases handle_store_cases EqualFold ds r with e | ⟨k', u0, u', hget', hdel', _, _, e⟩ | ⟨usrIn, e⟩
  · rw [e]; exact ⟨u, hget, hdel⟩
  · have hne : k ≠ k' := by
      rintro rfl
      rw [hget] at hget'
      cases hget'
      rw [hdel] at hdel'
      cases hdel'
    rw [e, storeGet_storeSet_other _ _ _ _ hne]
    exact ⟨u, hget, hdel⟩
  · have hne : k ≠ nextId ds := by
      rw [nextId_eq ds hlen]
      have := hinv.key_le hget
      omega
    rw [e, storeGet_storeSet_other _ _ _ _ hne]
    exact ⟨u, hget, hdel⟩

/-- An email once stored stays stored. -/
theorem email_step (EqualFold : String → String → Bool) (e : String) (ds : DataStore)
    (r : Request) (hinv : Inv ds) (hlen : storeLen ds < two63)
    (hQ : ∃ (k : Nat) (u : User), storeGet ds k = some u ∧ u.Email = e) :
    ∃ (k : Nat) (u : User), storeGet (handle EqualFold ds r).store k = some u ∧ u.Email = e := by
  obtain ⟨k, u, hget, hmail⟩ := hQ
  rcases handle_store_cases EqualFold ds r with h | ⟨k', u0, u', hget', _, _, hmail', h⟩ | ⟨usrIn, h⟩
  · rw [h]; exact ⟨k, u, hget, hmail⟩
  · by_cases hk : k = k'
    · subst hk
      rw [hget] at hget'
      cases hget'
      exact ⟨k, u', by rw [h]; exact storeGet_storeSet_same _ _ _, by rw [hmail', hmail]⟩
    · exact ⟨k, u, by rw [h, storeGet_storeSet_other _ _ _ _ hk]; exact hget, hmail⟩
  · have hne : k ≠ nextId ds := by
      rw [nextId_eq ds hlen]
      have := hinv.key_le hget
      omega
    exact ⟨k, u, by rw [h, storeGet_storeSet_other _ _ _ _ hne]; exact hget, hmail⟩

/-- What the create handler returns when it answers 200. -/
theorem postUser_ok {EqualFold : String → String → Bool} {ds : DataStore} {usrIn : User}
    (hok : (postUser EqualFold ds (some usrIn)).status = 200) :
    postUser EqualFold ds (some usrIn) =
      { status := 200,
        body := { Message := "Success create user",
                  Data := Payload.user { usrIn with Id := nextId ds } },
        store := storeSet ds (nextId ds) { usrIn with Id := nextId ds } } := by
  simp only [postUser] at hok ⊢
  split
  · rename_i h; simp [h] at hok
  · rename_i h
    split
    · rename_i h'; simp [h, h'] at hok
    · rfl

/-! ## Properties of runs from the seeded store -/

/-- C2. Id uniqueness, no reuse: in a store reachable from the seed (holding
fewer than `2^63` records, as every Go map does), a create answered 200 returns
a record whose id differs from every key and from the `Id` of every record
already stored, soft-deleted ones included; every record stored before is still
stored under its key afterwards (nothing is overwritten); and no later create
answered 200, after any further requests, returns that id again. -/
theorem postUser_id_fresh (EqualFold : String → String → Bool) (ds : DataStore) (usrIn : User)
    (hreach : Reachable EqualFold ds) (hlen : storeLen ds < two63)
    (hok : (postUser EqualFold ds (some usrIn)).status = 200) :
    ∃ u : User, (postUser EqualFold ds (some usrIn)).body.Data = Payload.user u ∧
      (∀ p ∈ ds, p.1 ≠ u.Id ∧ p.2.Id ≠ u.Id) ∧
      (∀ (k : Nat) (v : User), storeGet ds k = some v →
        storeGet (postUser EqualFold ds (some usrIn)).store k = some v) ∧
      (∀ (rs : List Request) (usr2 u2 : User),
        storeLen (run EqualFold (postUser EqualFold ds (some usrIn)).store rs) < two63 →
        (postUser EqualFold (run EqualFold (postUser EqualFold ds (some usrIn)).store rs)
          (some usr2)).status = 200 →
        (postUser EqualFold (run EqualFold (postUser EqualFold ds (some usrIn)).store rs)
          (some usr2)).body.Data = Payload.user u2 →
        u2.Id ≠ u.Id) := by
  have hinv := hreach.inv hlen
  have hnext := nextId_eq ds hlen
  rw [postUser_ok hok]
  refine ⟨_, rfl, ?_, ?_, ?_⟩
  · intro p hp
    have hk : p.1 ∈ storeKeys ds := List.mem_map_of_mem Prod.fst hp
    rw [hinv.1, List.mem_range'_1] at hk
    have hid := hinv.2 p hp
    simp only [hnext]
    omega
  · intro k v hget
    have hk := hinv.key_le hget
    have hne : k ≠ nextId ds := by rw [hnext]; omega
    simp only [storeGet_storeSet_other _ _ _ _ hne, hget]
  · have hgrow : storeLen (storeSet ds (nextId ds) { usrIn with Id := nextId ds })
        = storeLen ds + 1 := by
      rw [hnext]
      exact storeLen_storeSet_of_absent _ _ _ hinv.next_absent
    simp only []
    generalize storeSet ds (nextId ds) { usrIn with Id := nextId ds } = ds1 at hgrow ⊢
    intro rs usr2 u2 hlen2 hok2 hdata
    have hle := storeLen_le_run EqualFold ds1 rs
    have hnext2 := nextId_eq _ hlen2
    rw [postUser_ok hok2] at hdata
    simp only [Payload.user.injEq] at hdata
    rw [← hdata]
    dsimp only
    rw [hnext2, hnext]
    omega

theorem postUser_id_fresh_witness :
    ∃ u : User,
      (postUser asciiEqualFold seedStore (some ⟨0, "Alice", "a@x.com", false⟩)).body.Data
        = Payload.user u ∧
      (∀ p ∈ seedStore, p.1 ≠ u.Id ∧ p.2.Id ≠ u.Id) ∧
      (∀ (k : Nat) (v : User), storeGet seedStore k = some v →
        storeGet (postUser asciiEqualFold seedStore (some ⟨0, "Alice", "a@x.com", false⟩)).store k
          = some v) ∧
      (∀ (rs : List Request) (usr2 u2 : User),
        storeLen (run asciiEqualFold
          (postUser asciiEqualFold seedStore (some ⟨0, "Alice", "a@x.com", false⟩)).store rs)
            < two63 →
        (postUser asciiEqualFold (run asciiEqualFold
          (postUser asciiEqualFold seedStore (some ⟨0, "Alice", "a@x.com", false⟩)).store rs)
          (some usr2)).status = 200 →
        (postUser asciiEqualFold (run asciiEqualFold
          (postUser asciiEqualFold seedStore (some ⟨0, "Alice", "a@x.com", false⟩)).store rs)
          (some usr2)).body.Data = Payload.user u2 →
        u2.Id ≠ u.Id) :=
  postUser_id_fresh asciiEqualFold seedStore ⟨0, "Alice", "a@x.com", false⟩
    ⟨[], rfl⟩ (by decide) (by decide)

/-- C4, the failing input: on the seeded store a create request whose body binds
`Delete = true` (a form or XML body; the binder matches `Delete` by field name)
is answered 200 with id 3, the record is stored with `Delete = true`, and
`GET /user?id=3` issued immediately afterwards is answered 404. -/
theorem postUser_keeps_bound_delete_flag :
    (postUser asciiEqualFold seedStore (some ⟨0, "Alice", "a@x.com", true⟩)).status = 200 ∧
    (postUser asciiEqualFold seedStore (some ⟨0, "Alice", "a@x.com", true⟩)).body.Data
      = Payload.user ⟨3, "Alice", "a@x.com", true⟩ ∧
    storeGet (postUser asciiEqualFold seedStore (some ⟨0, "Alice", "a@x.com", true⟩)).store 3
      = some ⟨3, "Alice", "a@x.com", true⟩ ∧
    ParseInt "3" = some 3 ∧
    (getUser (postUser asciiEqualFold seedStore (some ⟨0, "Alice", "a@x.com", true⟩)).store
      "3").status = 404 := by
  decide

/-- Get after create, for a body that binds `Delete = false` (every JSON body,
the field being tagged `json:"-"`): the record is stored with `Delete = false`
and a `GET /user` for the assigned id returns it. -/
theorem getUser_after_postUser (EqualFold : String → String → Bool) (ds : DataStore)
    (usrIn : User) (id : String) (i : Int)
    (hflag : usrIn.Delete = false)
    (hok : (postUser EqualFold ds (some usrIn)).status = 200)
    (hparse : ParseInt id = some i) (hid : uint64 i = nextId ds) :
    storeGet (postUser EqualFold ds (some usrIn)).store (nextId ds)
      = some { Id := nextId ds, Name := usrIn.Name, Email := usrIn.Email, Delete := false } ∧
    (getUser (postUser EqualFold ds (some usrIn)).store id).status = 200 ∧
    (getUser (postUser EqualFold ds (some usrIn)).store id).body.Data
      = Payload.user
          { Id := nextId ds, Name := usrIn.Name, Email := usrIn.Email, Delete := false } := by
  have hne : id ≠ "" := ParseInt_ne_empty hparse
  rw [postUser_ok hok]
  have hget := storeGet_storeSet_same ds (nextId ds) { usrIn with Id := nextId ds }
  simp only [hflag] at hget
  simp [getUser, hne, hparse, hid, hget, hflag]

/-- C5. An email stays reserved: in a store reachable from the seed, once a
create with email `e` has been answered 200, then after any further sequence of
requests (the final store holding fewer than `2^63` records) every create
whose email `e2` satisfies `EqualFold e e2` is answered 400, and with the
duplicate-email message whenever its name and email are non-empty; this covers
the case where the record holding `e` has been soft-deleted in between. -/
theorem email_stays_reserved (EqualFold : String → String → Bool) (ds : DataStore)
    (usr1 usr2 : User) (rs : List Request)
    (hreach : Reachable EqualFold ds)
    (hok : (postUser EqualFold ds (some usr1)).status = 200)
    (hlen : storeLen (run EqualFold (postUser EqualFold ds (some usr1)).store rs) < two63)
    (hfold : EqualFold usr1.Email usr2.Email = true) :
    (postUser EqualFold (run EqualFold (postUser EqualFold ds (some usr1)).store rs)
      (some usr2)).status = 400 ∧
    (usr2.Name ≠ "" → usr2.Email ≠ "" →
      (postUser EqualFold (run EqualFold (postUser EqualFold ds (some usr1)).store rs)
        (some usr2)).body.Message = "Email already registered ") := by
  have hlen1 : storeLen (postUser EqualFold ds (some usr1)).store < two63 :=
    lt_of_le_of_lt (storeLen_le_run EqualFold _ rs) hlen
  have hlen0 : storeLen ds < two63 :=
    lt_of_le_of_lt (storeLen_le_handle EqualFold ds (Request.createUser (some usr1))) hlen1
  have hinv1 : Inv (postUser EqualFold ds (some usr1)).store :=
    (hreach.inv hlen0).preserved EqualFold hlen0 (Request.createUser (some usr1))
  have hQ1 : ∃ (k : Nat) (u : User),
      storeGet (postUser EqualFold ds (some usr1)).store k = some u ∧ u.Email = usr1.Email := by
    rw [postUser_ok hok]
    exact ⟨_, _, storeGet_storeSet_same _ _ _, rfl⟩
  obtain ⟨_, k, u, hget, hmail⟩ := run_induction EqualFold
    (fun s => ∃ (k : Nat) (u : User), storeGet s k = some u ∧ u.Email = usr1.Email)
    (email_step EqualFold usr1.Email) _ rs hinv1 hQ1 hlen
  have hany : (run EqualFold (postUser EqualFold ds (some usr1)).store rs).any
      (fun p => EqualFold p.2.Email usr2.Email) = true := by
    rw [List.any_eq_true]
    exact ⟨(k, u), mem_of_storeGet hget, by simp [hmail, hfold]⟩
  generalize run EqualFold (postUser EqualFold ds (some usr1)).store rs = ds2 at hany ⊢
  constructor
  · simp only [postUser]
    split
    · rfl
    · simp [hany]
  · intro hname hemail
    simp [postUser, hname, hemail, hany]

theorem email_stays_reserved_witness :
    (postUser asciiEqualFold
      (run asciiEqualFold (postUser asciiEqualFold seedStore
        (some ⟨0, "Alice", "a@x.com", false⟩)).store [Request.deleteUser "3"])
      (some ⟨0, "Bob", "A@X.com", false⟩)).status = 400 ∧
    (("Bob" : String) ≠ "" → ("A@X.com" : String) ≠ "" →
      (postUser asciiEqualFold
        (run asciiEqualFold (postUser asciiEqualFold seedStore
          (some ⟨0, "Alice", "a@x.com", false⟩)).store [Request.deleteUser "3"])
        (some ⟨0, "Bob", "A@X.com", false⟩)).body.Message = "Email already registered ") :=
  email_stays_reserved asciiEqualFold seedStore ⟨0, "Alice", "a@x.com", false⟩
    ⟨0, "Bob", "A@X.com", false⟩ [Request.deleteUser "3"] ⟨[], rfl⟩
    (by decide) (by decide) (by decide)

/-- C8. A deleted record stays invisible: in a store reachable from the seed,
after `DELETE /user/:id` has been answered 202 for the key `uint64 i`, in the
resulting store and in every store reached from it by further requests (holding
fewer than `2^63` records), for every id string that parses to the same key
`GET /user` is answered 404, `PUT /user/:id` is answered 404 for every
well-formed body (so for every non-empty name), a second `DELETE` is answered
404, and `GET /users` returns no record whose id is that key. -/
theorem deleted_stays_invisible (EqualFold : String → String → Bool) (ds : DataStore)
    (id : String) (i : Int) (rs : List Request)
    (hreach : Reachable EqualFold ds) (hparse : ParseInt id = some i)
    (hok : (deleteUser ds id).status = 202)
    (hlen : storeLen (run EqualFold (deleteUser ds id).store rs) < two63) :
    (∀ (id2 : String) (i2 : Int), ParseInt id2 = some i2 → uint64 i2 = uint64 i →
      (getUser (run EqualFold (deleteUser ds id).store rs) id2).status = 404 ∧
      (∀ usrIn : User,
        (putUser (run EqualFold (deleteUser ds id).store rs) id2 (some usrIn)).status = 404) ∧
      (deleteUser (run EqualFold (deleteUser ds id).store rs) id2).status = 404) ∧
    (getUsers (run EqualFold (deleteUser ds id).store rs)).status = 200 ∧
    (∃ us : List User,
      (getUsers (run EqualFold (deleteUser ds id).store rs)).body.Data = Payload.users us ∧
      ∀ u ∈ us, u.Id ≠ uint64 i) := by
  have hne : id ≠ "" := ParseInt_ne_empty hparse
  have hlen1 : storeLen (deleteUser ds id).store < two63 :=
    lt_of_le_of_lt (storeLen_le_run EqualFold _ rs) hlen
  have hlen0 : storeLen ds < two63 :=
    lt_of_le_of_lt (storeLen_le_handle EqualFold ds (Request.deleteUser id)) hlen1
  have hinv1 : Inv (deleteUser ds id).store :=
    (hreach.inv hlen0).preserved EqualFold hlen0 (Request.deleteUser id)
  have hQ1 : ∃ u : User, storeGet (deleteUser ds id).store (uint64 i) = some u ∧
      u.Delete = true := by
    simp only [deleteUser, hne, if_false, hparse] at hok ⊢
    cases hget : storeGet ds (uint64 i) with
    | none => simp [hget] at hok
    | some u =>
      cases hdel : u.Delete with
      | true => simp [hget, hdel] at hok
      | false =>
        simp only [hdel, Bool.false_eq_true, if_false]
        exact ⟨_, storeGet_storeSet_same _ _ _, rfl⟩
  obtain ⟨hinv2, u, hget, hdel⟩ := run_induction EqualFold
    (fun s => ∃ u : User, storeGet s (uint64 i) = some u ∧ u.Delete = true)
    (deleted_step EqualFold (uint64 i)) _ rs hinv1 hQ1 hlen
  generalize run EqualFold (deleteUser ds id).store rs = ds2 at hinv2 hget ⊢
  refine ⟨?_, rfl, _, rfl, ?_⟩
  · intro id2 i2 hparse2 hsame
    have hne2 : id2 ≠ "" := ParseInt_ne_empty hparse2
    refine ⟨?_, ?_, ?_⟩
    · simp [getUser, hne2, hparse2, hsame, hget, hdel]
    · intro usrIn
      simp [putUser, hne2, hparse2, hsame, hget, hdel]
    · simp [deleteUser, hne2, hparse2, hsame, hget, hdel]
  · intro v hv hid
    simp only [List.mem_map, List.mem_filter] at hv
    obtain ⟨⟨k, w⟩, ⟨hmem, hvis⟩, rfl⟩ := hv
    have hkey : w.Id = k := hinv2.2 (k, w) hmem
    have hk : k = uint64 i := by rw [← hkey]; exact hid
    subst hk
    have hget2 := storeGet_of_mem_of_nodup hinv2.nodup hmem
    rw [hget] at hget2
    cases hget2
    simp [hdel] at hvis

theorem deleted_stays_invisible_witness :
    (∀ (id2 : String) (i2 : Int), ParseInt id2 = some i2 → uint64 i2 = uint64 1 →
      (getUser (run asciiEqualFold (deleteUser seedStore "1").store
        [Request.createUser (some ⟨0, "Alice", "a@x.com", false⟩),
         Request.updateUser "1" (some ⟨0, "Johnny", "", false⟩)]) id2).status = 404 ∧
      (∀ usrIn : User,
        (putUser (run asciiEqualFold (deleteUser seedStore "1").store
          [Request.createUser (some ⟨0, "Alice", "a@x.com", false⟩),
           Request.updateUser "1" (some ⟨0, "Johnny", "", false⟩)]) id2 (some usrIn)).status
          = 404) ∧
      (deleteUser (run asciiEqualFold (deleteUser seedStore "1").store
        [Request.createUser (some ⟨0, "Alice", "a@x.com", false⟩),
         Request.updateUser "1" (some ⟨0, "Johnny", "", false⟩)]) id2).status = 404) ∧
    (getUsers (run asciiEqualFold (deleteUser seedStore "1").store
      [Request.createUser (some ⟨0, "Alice", "a@x.com", false⟩),
       Request.updateUser "1" (some ⟨0, "Johnny", "", false⟩)])).status = 200 ∧
    (∃ us : List User,
      (getUsers (run asciiEqualFold (deleteUser seedStore "1").store
        [Request.createUser (some ⟨0, "Alice", "a@x.com", false⟩),
         Request.updateUser "1" (some ⟨0, "Johnny", "", false⟩)])).body.Data
        = Payload.users us ∧
      ∀ u ∈ us, u.Id ≠ uint64 1) :=
  deleted_stays_invisible asciiEqualFold seedStore "1" 1
    [Request.createUser (some ⟨0, "Alice", "a@x.com", false⟩),
     Request.updateUser "1" (some ⟨0, "Johnny", "", false⟩)]
    ⟨[], rfl⟩ (by decide) (by decide) (by decide)

/-! ## Failure paths and read-only handlers -/

/-- C12. List returns exactly the visible records: on a store with pairwise
distinct keys (a Go map), `GET /users` is answered 200, leaves the store
unchanged, and its data is the list of the records stored under a duplicate-free
list of keys `ks`, one record per key, where `ks` holds exactly the keys whose
record has `Delete = false`. -/
theorem getUsers_spec (ds : DataStore) (hnd : (storeKeys ds).Nodup) :
    (getUsers ds).status = 200 ∧ (getUsers ds).store = ds ∧
    ∃ (ks : List Nat) (us : List User),
      (getUsers ds).body.Data = Payload.users us ∧
      ks.Nodup ∧
      (∀ k : Nat, k ∈ ks ↔ ∃ u : User, storeGet ds k = some u ∧ u.Delete = false) ∧
      us.map some = ks.map (storeGet ds) := by
  refine ⟨rfl, rfl, (ds.filter (fun p : Nat × User => !p.2.Delete)).map Prod.fst,
    (ds.filter (fun p : Nat × User => !p.2.Delete)).map Prod.snd, rfl, ?_, ?_, ?_⟩
  · exact List.Nodup.sublist (List.Sublist.map Prod.fst (List.filter_sublist ds)) hnd
  · intro k
    constructor
    · intro hk
      simp only [List.mem_map, List.mem_filter] at hk
      obtain ⟨⟨k', u⟩, ⟨hmem, hvis⟩, rfl⟩ := hk
      exact ⟨u, storeGet_of_mem_of_nodup hnd hmem, by simpa using hvis⟩
    · rintro ⟨u, hget, hdel⟩
      simp only [List.mem_map, List.mem_filter]
      exact ⟨(k, u), ⟨mem_of_storeGet hget, by simp [hdel]⟩, rfl⟩
  · rw [List.map_map, List.map_map]
    apply List.map_congr_left
    intro p hp
    have hmem : p ∈ ds := (List.mem_filter.mp hp).1
    exact (storeGet_of_mem_of_nodup hnd hmem).symm

theorem getUsers_spec_witness :
    (getUsers (deleteUser seedStore "1").store).status = 200 ∧
    (getUsers (deleteUser seedStore "1").store).store = (deleteUser seedStore "1").store ∧
    ∃ (ks : List Nat) (us : List User),
      (getUsers (deleteUser seedStore "1").store).body.Data = Payload.users us ∧
      ks.Nodup ∧
      (∀ k : Nat, k ∈ ks ↔
        ∃ u : User, storeGet (deleteUser seedStore "1").store k = some u ∧ u.Delete = false) ∧
      us.map some = ks.map (storeGet (deleteUser seedStore "1").store) :=
  getUsers_spec (deleteUser seedStore "1").store (by decide)

theorem getUser_store (ds : DataStore) (id : String) : (getUser ds id).store = ds := by
  simp only [getUser]
  split
  · rfl
  · split
    · rfl
    · split
      · rfl
      · split <;> rfl

/-- An update or a delete leaves the store alone or overwrites the record of a
present, not soft-deleted key by one with the same `Id` and `Email`. -/
theorem write_back_cases (EqualFold : String → String → Bool) (ds : DataStore) (r : Request)
    (hr : (∃ id bound, r = Request.updateUser id bound) ∨ (∃ id, r = Request.deleteUser id)) :
    (handle EqualFold ds r).store = ds ∨
    (∃ (k : Nat) (u u' : User), storeGet ds k = some u ∧ u.Delete = false ∧ u'.Id = u.Id ∧
      u'.Email = u.Email ∧ (handle EqualFold ds r).store = storeSet ds k u') := by
  rcases hr with ⟨id, bound, rfl⟩ | ⟨id, rfl⟩
  · simp only [handle]
    by_cases hid : id = ""
    · exact Or.inl (by simp [putUser, hid])
    · cases hparse : ParseInt id with
      | none => exact Or.inl (by simp [putUser, hid, hparse])
      | some i =>
        cases bound with
        | none => exact Or.inl (by simp [putUser, hid, hparse])
        | some usrIn =>
          cases hlook : storeGet ds (uint64 i) with
          | none => exact Or.inl (by simp [putUser, hid, hparse, hlook])
          | some u =>
            cases hdel : u.Delete with
            | true => exact Or.inl (by simp [putUser, hid, hparse, hlook, hdel])
            | false =>
              by_cases hname : usrIn.Name = ""
              · exact Or.inl (by simp [putUser, hid, hparse, hlook, hdel, hname])
              · exact Or.inr ⟨uint64 i, u, { u with Name := usrIn.Name }, hlook, hdel, rfl, rfl,
                  by simp [putUser, hid, hparse, hlook, hdel, hname]⟩
  · simp only [handle]
    by_cases hid : id = ""
    · exact Or.inl (by simp [deleteUser, hid])
    · cases hparse : ParseInt id with
      | none => exact Or.inl (by simp [deleteUser, hid, hparse])
      | some i =>
        cases hlook : storeGet ds (uint64 i) with
        | none => exact Or.inl (by simp [deleteUser, hid, hparse, hlook])
        | some u =>
          cases hdel : u.Delete with
          | true => exact Or.inl (by simp [deleteUser, hid, hparse, hlook, hdel])
          | false =>
            exact Or.inr ⟨uint64 i, u, { u with Delete := true }, hlook, hdel, rfl, rfl,
              by simp [deleteUser, hid, hparse, hlook, hdel]⟩

/-- C13. Failed and read-only requests are atomic: whatever the store and the
request, a response with status 400 or 404 leaves the store as it was; and
`GET /users` and `GET /user` leave the store as it was whatever their status. -/
theorem failed_or_read_only_keeps_store (EqualFold : String → String → Bool) (ds : DataStore) :
    (∀ r : Request, (handle EqualFold ds r).status = 400 ∨ (handle EqualFold ds r).status = 404 →
      (handle EqualFold ds r).store = ds) ∧
    (getUsers ds).store = ds ∧
    (∀ id : String, (getUser ds id).store = ds) := by
  have hget : ∀ id : String, (getUser ds id).store = ds := getUser_store ds
  refine ⟨?_, rfl, hget⟩
  intro r hst
  cases r with
  | listUsers => rfl
  | getUser id => exact hget id
  | createUser bound =>
    simp only [handle, postUser] at hst ⊢
    split
    · rfl
    · split
      · rfl
      · split
        · rfl
        · rename_i h1 h2
          simp [h1, h2] at hst
  | updateUser id bound =>
    simp only [handle] at hst ⊢
    by_cases hid : id = ""
    · simp [putUser, hid]
    · cases hparse : ParseInt id with
      | none => simp [putUser, hid, hparse]
      | some i =>
        cases bound with
        | none => simp [putUser, hid, hparse]
        | some usrIn =>
          cases hlook : storeGet ds (uint64 i) with
          | none => simp [putUser, hid, hparse, hlook]
          | some u =>
            cases hdel : u.Delete with
            | true => simp [putUser, hid, hparse, hlook, hdel]
            | false =>
              by_cases hname : usrIn.Name = ""
              · simp [putUser, hid, hparse, hlook, hdel, hname]
              · simp [putUser, hid, hparse, hlook, hdel, hname] at hst
  | deleteUser id =>
    simp only [handle] at hst ⊢
    by_cases hid : id = ""
    · simp [deleteUser, hid]
    · cases hparse : ParseInt id with
      | none => simp [deleteUser, hid, hparse]
      | some i =>
        cases hlook : storeGet ds (uint64 i) with
        | none => simp [deleteUser, hid, hparse, hlook]
        | some u =>
          cases hdel : u.Delete with
          | true => simp [deleteUser, hid, hparse, hlook, hdel]
          | false => simp [deleteUser, hid, hparse, hlook, hdel] at hst

/-! ## Email uniqueness and the shape of reachable stores -/

/-- The step shapes of `handle_store_cases`, the create case carrying the
outcome of the email scan. -/
theorem handle_store_cases_scan (EqualFold : String → String → Bool) (ds : DataStore)
    (r : Request) :
    (handle EqualFold ds r).store = ds ∨
    (∃ (k : Nat) (u u' : User), storeGet ds k = some u ∧ u.Delete = false ∧ u'.Id = u.Id ∧
      u'.Email = u.Email ∧ (handle EqualFold ds r).store = storeSet ds k u') ∨
    (∃ usrIn : User, (∀ p ∈ ds, EqualFold p.2.Email usrIn.Email = false) ∧
      (handle EqualFold ds r).store =
        storeSet ds (nextId ds) { usrIn with Id := nextId ds }) := by
  cases r with
  | createUser bound =>
    cases bound with
    | none => exact Or.inl rfl
    | some usrIn =>
      by_cases hbad : usrIn.Email = "" ∨ usrIn.Name = ""
      · exact Or.inl (by simp [handle, postUser, hbad])
      · cases hany : ds.any (fun p => EqualFold p.2.Email usrIn.Email) with
        | true => exact Or.inl (by simp [handle, postUser, hbad, hany])
        | false =>
          refine Or.inr (Or.inr ⟨usrIn, ?_, ?_⟩)
          · intro p hp
            have h := List.any_eq_false.mp hany p hp
            simpa using h
          · simp only [handle, postUser, hbad, if_false, hany, Bool.false_eq_true]
            rfl
  | listUsers => exact Or.inl rfl
  | getUser id => exact Or.inl (getUser_store ds id)
  | updateUser id bound =>
    rcases write_back_cases EqualFold ds (Request.updateUser id bound)
      (Or.inl ⟨id, bound, rfl⟩) with h | h
    · exact Or.inl h
    · exact Or.inr (Or.inl h)
  | deleteUser id =>
    rcases write_back_cases EqualFold ds (Request.deleteUser id) (Or.inr ⟨id, rfl⟩) with h | h
    · exact Or.inl h
    · exact Or.inr (Or.inl h)

/-- After a write-back that keeps the email, a record found under a key has the
email of the record found there before. -/
theorem storeGet_write_back {ds : DataStore} {k k' : Nat} {u0 u' v : User}
    (hold : storeGet ds k' = some u0) (hmail : u'.Email = u0.Email)
    (hget : storeGet (storeSet ds k' u') k = some v) :
    ∃ v0 : User, storeGet ds k = some v0 ∧ v0.Email = v.Email := by
  by_cases hk : k = k'
  · subst hk
    rw [storeGet_storeSet_same] at hget
    cases hget
    exact ⟨u0, hold, hmail.symm⟩
  · rw [storeGet_storeSet_other _ _ _ _ hk] at hget
    exact ⟨v, hget, rfl⟩

/-- One request keeps the emails pairwise distinct under `EqualFold`, the older
record (smaller key) as first argument. -/
theorem email_unique_step (EqualFold : String → String → Bool) (ds : DataStore) (r : Request)
    (hinv : Inv ds) (hlen : storeLen ds < two63)
    (hQ : ∀ (k1 k2 : Nat) (u1 u2 : User), k1 < k2 → storeGet ds k1 = some u1 →
      storeGet ds k2 = some u2 → EqualFold u1.Email u2.Email = false) :
    ∀ (k1 k2 : Nat) (u1 u2 : User), k1 < k2 →
      storeGet (handle EqualFold ds r).store k1 = some u1 →
      storeGet (handle EqualFold ds r).store k2 = some u2 →
      EqualFold u1.Email u2.Email = false := by
  rcases handle_store_cases_scan EqualFold ds r with
    e | ⟨k', u0, u', hold, _, _, hmail, e⟩ | ⟨usrIn, hscan, e⟩
  · rw [e]; exact hQ
  · rw [e]
    intro k1 k2 u1 u2 hlt h1 h2
    obtain ⟨v1, hv1, hm1⟩ := storeGet_write_back hold hmail h1
    obtain ⟨v2, hv2, hm2⟩ := storeGet_write_back hold hmail h2
    rw [← hm1, ← hm2]
    exact hQ k1 k2 v1 v2 hlt hv1 hv2
  · rw [e, nextId_eq ds hlen]
    intro k1 k2 u1 u2 hlt h1 h2
    by_cases hk2 : k2 = storeLen ds + 1
    · subst hk2
      rw [storeGet_storeSet_same] at h2
      cases h2
      rw [storeGet_storeSet_other _ _ _ _ (Nat.ne_of_lt hlt)] at h1
      exact hscan (k1, u1) (mem_of_storeGet h1)
    · rw [storeGet_storeSet_other _ _ _ _ hk2] at h2
      have hle := hinv.key_le h2
      have hk1 : k1 ≠ storeLen ds + 1 := by omega
      rw [storeGet_storeSet_other _ _ _ _ hk1] at h1
      exact hQ k1 k2 u1 u2 hlt h1 h2

theorem email_unique_seedStore (EqualFold : String → String → Bool)
    (hseed : EqualFold "jhondoe@gmail.com" "janedow@gmail.com" = false) :
    ∀ (k1 k2 : Nat) (u1 u2 : User), k1 < k2 → storeGet seedStore k1 = some u1 →
      storeGet seedStore k2 = some u2 → EqualFold u1.Email u2.Email = false := by
  intro k1 k2 u1 u2 hlt h1 h2
  have hb1 := Inv_seedStore.key_le h1
  have hb2 := Inv_seedStore.key_le h2
  have hn : storeLen seedStore = 2 := rfl
  have hk1 : k1 = 1 := by omega
  have hk2 : k2 = 2 := by omega
  subst hk1 hk2
  have e1 : storeGet seedStore 1 = some ⟨1, "John Doe", "jhondoe@gmail.com", false⟩ := rfl
  have e2 : storeGet seedStore 2 = some ⟨2, "Jane Doe", "janedow@gmail.com", false⟩ := rfl
  rw [e1] at h1
  rw [e2] at h2
  cases h1
  cases h2
  exact hseed

theorem asciiEqualFold_comm (a b : String) : asciiEqualFold a b = asciiEqualFold b a := by
  unfold asciiEqualFold
  rw [Bool.eq_iff_iff, beq_iff_eq, beq_iff_eq]
  exact eq_comm

/-- C14. Email uniqueness is a store invariant: in every store reachable from the
seed (holding fewer than `2^63` records), the records under two distinct keys,
soft-deleted or not, do not have `EqualFold`-equal emails. Create is the only
handler that checks it; update and delete write the email back unchanged.
`EqualFold` is assumed symmetric and to tell the two seeded emails apart, as
`strings.EqualFold` does. -/
theorem email_unique (EqualFold : String → String → Bool) (ds : DataStore)
    (hseed : EqualFold "jhondoe@gmail.com" "janedow@gmail.com" = false)
    (hsymm : ∀ a b : String, EqualFold a b = EqualFold b a)
    (hreach : Reachable EqualFold ds) (hlen : storeLen ds < two63) :
    ∀ (k1 k2 : Nat) (u1 u2 : User), k1 ≠ k2 → storeGet ds k1 = some u1 →
      storeGet ds k2 = some u2 → EqualFold u1.Email u2.Email = false := by
  obtain ⟨rs, rfl⟩ := hreach
  have hQ := (run_induction EqualFold
    (fun s => ∀ (k1 k2 : Nat) (u1 u2 : User), k1 < k2 → storeGet s k1 = some u1 →
      storeGet s k2 = some u2 → EqualFold u1.Email u2.Email = false)
    (email_unique_step EqualFold) seedStore rs Inv_seedStore
    (email_unique_seedStore EqualFold hseed) hlen).2
  intro k1 k2 u1 u2 hne h1 h2
  rcases Nat.lt_or_gt_of_ne hne with hlt | hgt
  · exact hQ k1 k2 u1 u2 hlt h1 h2
  · rw [hsymm]
    exact hQ k2 k1 u2 u1 hgt h2 h1

theorem email_unique_witness :
    storeGet (run asciiEqualFold seedStore
      [Request.createUser (some ⟨0, "Alice", "a@x.com", false⟩),
       Request.createUser (some ⟨0, "Bob", "b@x.com", false⟩),
       Request.deleteUser "3"]) 3 = some ⟨3, "Alice", "a@x.com", true⟩ ∧
    storeGet (run asciiEqualFold seedStore
      [Request.createUser (some ⟨0, "Alice", "a@x.com", false⟩),
       Request.createUser (some ⟨0, "Bob", "b@x.com", false⟩),
       Request.deleteUser "3"]) 4 = some ⟨4, "Bob", "b@x.com", false⟩ ∧
    asciiEqualFold "a@x.com" "b@x.com" = false :=
  ⟨by decide, by decide,
    email_unique asciiEqualFold
      (run asciiEqualFold seedStore
        [Request.createUser (some ⟨0, "Alice", "a@x.com", false⟩),
         Request.createUser (some ⟨0, "Bob", "b@x.com", false⟩),
         Request.deleteUser "3"])
      (by decide) asciiEqualFold_comm ⟨_, rfl⟩ (by decide)
      3 4 ⟨3, "Alice", "a@x.com", true⟩ ⟨4, "Bob", "b@x.com", false⟩
      (by decide) (by decide) (by decide)⟩

/-- C18. Structural invariant: in every store reachable from the seed (holding
fewer than `2^63` records) the keys are exactly `1, ..., n` for `n` the number
of records, the record stored under key `k` has `Id = k`, and so a record
returned by `GET /user` carries the id it was looked up by. -/
theorem reachable_keys_and_ids (EqualFold : String → String → Bool) (ds : DataStore)
    (hreach : Reachable EqualFold ds) (hlen : storeLen ds < two63) :
    storeKeys ds = List.range' 1 (storeLen ds) ∧
    (∀ k : Nat, (1 ≤ k ∧ k ≤ storeLen ds) ↔ ∃ u : User, storeGet ds k = some u) ∧
    (∀ (k : Nat) (u : User), storeGet ds k = some u → u.Id = k) ∧
    (∀ (id : String) (i : Int) (u : User), ParseInt id = some i →
      (getUser ds id).body.Data = Payload.user u → u.Id = uint64 i) := by
  have hinv := hreach.inv hlen
  have hids : ∀ (k : Nat) (u : User), storeGet ds k = some u → u.Id = k :=
    fun k u hget => hinv.2 (k, u) (mem_of_storeGet hget)
  refine ⟨hinv.1, ?_, hids, ?_⟩
  · intro k
    constructor
    · intro hk
      cases hget : storeGet ds k with
      | some u => exact ⟨u, rfl⟩
      | none =>
        have hnot := (storeGet_eq_none_iff ds k).mp hget
        rw [hinv.1, List.mem_range'_1] at hnot
        omega
    · rintro ⟨u, hget⟩
      exact hinv.key_le hget
  · intro id i u hparse hdata
    have hid : id ≠ "" := ParseInt_ne_empty hparse
    cases hget : storeGet ds (uint64 i) with
    | none => simp [getUser, hid, hparse, hget] at hdata
    | some v =>
      cases hdel : v.Delete with
      | true => simp [getUser, hid, hparse, hget, hdel] at hdata
      | false =>
        simp [getUser, hid, hparse, hget, hdel] at hdata
        rw [← hdata]
        exact hids _ _ hget

theorem reachable_keys_and_ids_witness :
    storeKeys (run asciiEqualFold seedStore
        [Request.createUser (some ⟨99, "Alice", "a@x.com", false⟩),
         Request.updateUser "3" (some ⟨55, "Alicia", "", false⟩)])
      = List.range' 1 (storeLen (run asciiEqualFold seedStore
        [Request.createUser (some ⟨99, "Alice", "a@x.com", false⟩),
         Request.updateUser "3" (some ⟨55, "Alicia", "", false⟩)])) ∧
    (∀ k : Nat, (1 ≤ k ∧ k ≤ storeLen (run asciiEqualFold seedStore
        [Request.createUser (some ⟨99, "Alice", "a@x.com", false⟩),
         Request.updateUser "3" (some ⟨55, "Alicia", "", false⟩)])) ↔
      ∃ u : User, storeGet (run asciiEqualFold seedStore
        [Request.createUser (some ⟨99, "Alice", "a@x.com", false⟩),
         Request.updateUser "3" (some ⟨55, "Alicia", "", false⟩)]) k = some u) ∧
    (∀ (k : Nat) (u : User), storeGet (run asciiEqualFold seedStore
        [Request.createUser (some ⟨99, "Alice", "a@x.com", false⟩),
         Request.updateUser "3" (some ⟨55, "Alicia", "", false⟩)]) k = some u → u.Id = k) ∧
    (∀ (id : String) (i : Int) (u : User), ParseInt id = some i →
      (getUser (run asciiEqualFold seedStore
        [Request.createUser (some ⟨99, "Alice", "a@x.com", false⟩),
         Request.updateUser "3" (some ⟨55, "Alicia", "", false⟩)]) id).body.Data
        = Payload.user u → u.Id = uint64 i) :=
  reachable_keys_and_ids asciiEqualFold _ ⟨_, rfl⟩ (by decide)

/-! ## Parsing of the id -/

theorem uint64_ofNat (n : Nat) (h : n < two63) : uint64 (n : Int) = n := by
  unfold two63 at h
  unfold uint64
  omega

theorem uint64_neg (n : Nat) (h1 : 1 ≤ n) (h2 : n ≤ two63) :
    uint64 (-(n : Int)) = 18446744073709551616 - n := by
  unfold two63 at h2
  unfold uint64
  omega

theorem parseDigits_eq_none (l : List Char) (acc : Nat)
    (h : l.all (fun d => (digitVal d).isSome) = false) : parseDigits l acc = none := by
  induction l generalizing acc with
  | nil => simp at h
  | cons c cs ih =>
    cases hc : digitVal c with
    | none => simp [parseDigits, hc]
    | some d =>
      have hrest : cs.all (fun d => (digitVal d).isSome) = false := by
        simpa [List.all_cons, hc] using h
      simp [parseDigits, hc, ih _ hrest]

theorem ParseInt_range {s : String} {i : Int} (h : ParseInt s = some i) :
    -9223372036854775808 ≤ i ∧ i < 9223372036854775808 := by
  unfold ParseInt at h
  split at h
  · cases h
  · simp only [] at h
    split at h
    · cases h
    · split at h
      · cases h
      · split at h
        · split at h
          · cases h
          · cases h; omega
        · split at h
          · cases h
          · cases h; omega

theorem digit_not_sign {c : Char} {d : Nat} (h : digitVal c = some d) : c ≠ '+' ∧ c ≠ '-' := by
  constructor
  · rintro rfl
    simp [digitVal] at h
  · rintro rfl
    simp [digitVal] at h

theorem ParseInt_of_DecimalOf {s : String} {n : Nat} (h : DecimalOf s n) :
    ParseInt s =
      if n ≥ 9223372036854775808 then none else some (n : Int) := by
  obtain ⟨hne, hval⟩ := h
  cases hl : s.toList with
  | nil => exact absurd hl hne
  | cons c cs =>
    rw [hl] at hval
    cases hc : digitVal c with
    | none => simp [parseDigits, hc] at hval
    | some d =>
      obtain ⟨hplus, hminus⟩ := digit_not_sign hc
      simp only [ParseInt, hl, hplus, hminus, or_self, if_false, hval, decide_False,
        Bool.false_eq_true]

theorem ParseInt_neg_of_DecimalOf {s : String} {n : Nat} (h : DecimalOf s n) :
    ParseInt ("-" ++ s) =
      if n > 9223372036854775808 then none else some (-(n : Int)) := by
  obtain ⟨hne, hval⟩ := h
  have hl : ("-" ++ s).toList = '-' :: s.toList := by
    simp [String.toList]
  cases hs : s.toList with
  | nil => exact absurd hs hne
  | cons c cs =>
    rw [hs] at hval hl
    have hs' : s.data = c :: cs := hs
    simp [ParseInt, hs', hval]

theorem ParseInt_eq_none_of_not_decimal {s : String} (h : isDecimalInteger s = false) :
    ParseInt s = none := by
  unfold isDecimalInteger at h
  unfold ParseInt
  cases hl : s.toList with
  | nil => rfl
  | cons c cs =>
    rw [hl] at h
    simp only [] at h ⊢
    cases hbody : (if c = '+' ∨ c = '-' then cs else c :: cs) with
    | nil => rfl
    | cons d ds =>
      rw [hbody] at h
      have hall : (d :: ds).all (fun d => (digitVal d).isSome) = false := by
        simpa using h
      simp only [parseDigits_eq_none _ 0 hall]

theorem getUser_status_400_iff (ds : DataStore) (id : String) :
    (getUser ds id).status = 400 ↔ ParseInt id = none := by
  by_cases hid : id = ""
  · subst hid
    simp [getUser, ParseInt]
  · cases hparse : ParseInt id with
    | none => simp [getUser, hid, hparse]
    | some i =>
      cases hlook : storeGet ds (uint64 i) with
      | none => simp [getUser, hid, hparse, hlook]
      | some u => cases hdel : u.Delete <;> simp [getUser, hid, hparse, hlook, hdel]

theorem deleteUser_status_400_iff (ds : DataStore) (id : String) :
    (deleteUser ds id).status = 400 ↔ ParseInt id = none := by
  by_cases hid : id = ""
  · subst hid
    simp [deleteUser, ParseInt]
  · cases hparse : ParseInt id with
    | none => simp [deleteUser, hid, hparse]
    | some i =>
      cases hlook : storeGet ds (uint64 i) with
      | none => simp [deleteUser, hid, hparse, hlook]
      | some u => cases hdel : u.Delete <;> simp [deleteUser, hid, hparse, hlook, hdel]

theorem putUser_status_400_iff (ds : DataStore) (id : String) (usrIn : User)
    (hname : usrIn.Name ≠ "") :
    (putUser ds id (some usrIn)).status = 400 ↔ ParseInt id = none := by
  by_cases hid : id = ""
  · subst hid
    simp [putUser, ParseInt]
  · cases hparse : ParseInt id with
    | none => simp [putUser, hid, hparse]
    | some i =>
      cases hlook : storeGet ds (uint64 i) with
      | none => simp [putUser, hid, hparse, hlook]
      | some u => cases hdel : u.Delete <;> simp [putUser, hid, hparse, hlook, hdel, hname]

/-- What the three id-taking handlers answer when the id parses to a key that
is no key of the store or whose record is soft-deleted: 404, store unchanged. -/
theorem not_found_of_missing (ds : DataStore) (id : String) (i : Int)
    (hparse : ParseInt id = some i)
    (hmiss : storeGet ds (uint64 i) = none ∨
      ∃ u : User, storeGet ds (uint64 i) = some u ∧ u.Delete = true) :
    ((getUser ds id).status = 404 ∧ (getUser ds id).store = ds) ∧
    (∀ usrIn : User, (putUser ds id (some usrIn)).status = 404 ∧
      (putUser ds id (some usrIn)).store = ds) ∧
    ((deleteUser ds id).status = 404 ∧ (deleteUser ds id).store = ds) := by
  have hid : id ≠ "" := ParseInt_ne_empty hparse
  rcases hmiss with hget | ⟨u, hget, hdel⟩
  · refine ⟨?_, ?_, ?_⟩
    · simp [getUser, hid, hparse, hget]
    · intro usrIn; simp [putUser, hid, hparse, hget]
    · simp [deleteUser, hid, hparse, hget]
  · refine ⟨?_, ?_, ?_⟩
    · simp [getUser, hid, hparse, hget, hdel]
    · intro usrIn; simp [putUser, hid, hparse, hget, hdel]
    · simp [deleteUser, hid, hparse, hget, hdel]

/-- What `PUT /user/:id` answers when the id does not parse: 400, store
unchanged, whatever the body. -/
theorem putUser_of_parse_none (ds : DataStore) (id : String) (bound : Option User)
    (hnone : ParseInt id = none) :
    (putUser ds id bound).status = 400 ∧ (putUser ds id bound).store = ds := by
  by_cases hid : id = ""
  · simp [putUser, hid]
  · simp [putUser, hid, hnone]

/-- C10, amended. Update with an empty name: for every id string and every
well-formed body whose name is empty, `PUT /user/:id` leaves the store
unchanged. It answers 400 when the id does not parse as a signed 64-bit
base-10 integer (an empty id, an id that is not a base-10 integer, a decimal id
of `2^63` or more) and when the parsed id is the key of a record that is not
soft-deleted; it answers 404 when the parsed id is no key or its record is
soft-deleted (the existence check comes before the name check). On the seeded
store `PUT /user/1` with an empty name is answered 400 and record 1 is still
named "John Doe". -/
theorem putUser_empty_name (ds : DataStore) (id : String) (usrIn : User)
    (hname : usrIn.Name = "") :
    (putUser ds id (some usrIn)).store = ds ∧
    (ParseInt id = none → (putUser ds id (some usrIn)).status = 400) ∧
    ((id = "" ∨ isDecimalInteger id = false ∨ ∃ n : Nat, DecimalOf id n ∧ two63 ≤ n) →
      (putUser ds id (some usrIn)).status = 400) ∧
    (∀ i : Int, ParseInt id = some i →
      (∀ u : User, storeGet ds (uint64 i) = some u → u.Delete = false →
        (putUser ds id (some usrIn)).status = 400) ∧
      (storeGet ds (uint64 i) = none → (putUser ds id (some usrIn)).status = 404) ∧
      (∀ u : User, storeGet ds (uint64 i) = some u → u.Delete = true →
        (putUser ds id (some usrIn)).status = 404)) ∧
    ((putUser seedStore "1" (some ⟨0, "", "", false⟩)).status = 400 ∧
      (storeGet (putUser seedStore "1" (some ⟨0, "", "", false⟩)).store 1).map User.Name
        = some "John Doe") := by
  refine ⟨?_, ?_, ?_, ?_, ?_⟩
  · cases hparse : ParseInt id with
    | none => exact (putUser_of_parse_none ds id (some usrIn) hparse).2
    | some i =>
      have hid : id ≠ "" := ParseInt_ne_empty hparse
      simp only [putUser, hid, if_false, hparse, hname]
      cases hget : storeGet ds (uint64 i) with
      | none => rfl
      | some u => cases hdel : u.Delete <;> simp [hdel]
  · intro hnone
    exact (putUser_of_parse_none ds id (some usrIn) hnone).1
  · intro hbad
    have hnone : ParseInt id = none := by
      rcases hbad with rfl | h | ⟨n, hdec, hbig⟩
      · rfl
      · exact ParseInt_eq_none_of_not_decimal h
      · have hp := ParseInt_of_DecimalOf hdec
        have hge : n ≥ 9223372036854775808 := by unfold two63 at hbig; omega
        rw [if_pos hge] at hp
        exact hp
    exact (putUser_of_parse_none ds id (some usrIn) hnone).1
  · intro i hparse
    have hid : id ≠ "" := ParseInt_ne_empty hparse
    refine ⟨?_, ?_, ?_⟩
    · intro u hget hdel
      simp [putUser, hid, hparse, hget, hdel, hname]
    · intro hget
      simp [putUser, hid, hparse, hget]
    · intro u hget hdel
      simp [putUser, hid, hparse, hget, hdel]
  · decide

theorem putUser_empty_name_witness :
    (putUser seedStore "2" (some ⟨0, "", "x@y.z", false⟩)).store = seedStore ∧
    (putUser seedStore "2" (some ⟨0, "", "x@y.z", false⟩)).status = 400 ∧
    (putUser seedStore "3" (some ⟨0, "", "x@y.z", false⟩)).status = 404 ∧
    (putUser seedStore "9223372036854775808" (some ⟨0, "", "x@y.z", false⟩)).status = 400 ∧
    (putUser seedStore "abc" (some ⟨0, "", "x@y.z", false⟩)).status = 400 :=
  ⟨(putUser_empty_name seedStore "2" ⟨0, "", "x@y.z", false⟩ rfl).1,
    ((putUser_empty_name seedStore "2" ⟨0, "", "x@y.z", false⟩ rfl).2.2.2.1 2 (by decide)).1
      ⟨2, "Jane Doe", "janedow@gmail.com", false⟩ (by decide) rfl,
    ((putUser_empty_name seedStore "3" ⟨0, "", "x@y.z", false⟩ rfl).2.2.2.1 3 (by decide)).2.1
      (by decide),
    (putUser_empty_name seedStore "9223372036854775808" ⟨0, "", "x@y.z", false⟩ rfl).2.2.1
      (Or.inr (Or.inr ⟨9223372036854775808, ⟨by decide, by decide⟩, by decide⟩)),
    (putUser_empty_name seedStore "abc" ⟨0, "", "x@y.z", false⟩ rfl).2.2.1
      (Or.inr (Or.inl (by decide)))⟩

/-- C11, as stated, fails: `9223372036854775808` (that is `2^63`) is a numeric id
that is no key of the seeded store, yet `PUT /user/9223372036854775808` with a
well-formed body is answered 400, not 404. -/
theorem putUser_absent_id_out_of_range :
    DecimalOf "9223372036854775808" 9223372036854775808 ∧
    storeGet seedStore 9223372036854775808 = none ∧
    (putUser seedStore "9223372036854775808" (some ⟨0, "Zed", "", false⟩)).status = 400 ∧
    (putUser seedStore "9223372036854775808" (some ⟨0, "Zed", "", false⟩)).status ≠ 404 := by
  refine ⟨⟨by decide, by decide⟩, by decide, by decide, by decide⟩

/-- C11, amended. Update on a missing record is NotFound within the signed
64-bit range: for an id written in decimal with value `n < 2^63` that is no key
of the store or whose record is soft-deleted, and for every well-formed body,
`PUT /user/:id` is answered 404 and leaves the store unchanged; the same holds
for every id string the handler parses (negative ones included, converted to
`uint64`) to a key that is no key or whose record is soft-deleted. For an id
written in decimal with value `n ≥ 2^63` the answer is 400, the store
unchanged. -/
theorem putUser_not_found (ds : DataStore) (id : String) (n : Nat) (usrIn : User)
    (hdec : DecimalOf id n) :
    (n < two63 →
      (storeGet ds n = none ∨ ∃ u : User, storeGet ds n = some u ∧ u.Delete = true) →
      (putUser ds id (some usrIn)).status = 404 ∧ (putUser ds id (some usrIn)).store = ds) ∧
    (two63 ≤ n →
      (putUser ds id (some usrIn)).status = 400 ∧ (putUser ds id (some usrIn)).store = ds) ∧
    (∀ (id2 : String) (i : Int), ParseInt id2 = some i →
      (storeGet ds (uint64 i) = none ∨
        ∃ u : User, storeGet ds (uint64 i) = some u ∧ u.Delete = true) →
      (putUser ds id2 (some usrIn)).status = 404 ∧
      (putUser ds id2 (some usrIn)).store = ds) := by
  have hp := ParseInt_of_DecimalOf hdec
  refine ⟨?_, ?_, ?_⟩
  · intro hlt hmiss
    have hlt' : ¬ n ≥ 9223372036854775808 := by unfold two63 at hlt; omega
    rw [if_neg hlt'] at hp
    rw [← uint64_ofNat n hlt] at hmiss
    exact (not_found_of_missing ds id n hp hmiss).2.1 usrIn
  · intro hge
    have hge' : n ≥ 9223372036854775808 := by unfold two63 at hge; omega
    rw [if_pos hge'] at hp
    exact putUser_of_parse_none ds id (some usrIn) hp
  · intro id2 i hparse hmiss
    exact (not_found_of_missing ds id2 i hparse hmiss).2.1 usrIn

theorem putUser_not_found_witness :
    ((putUser seedStore "7" (some ⟨0, "Zed", "", false⟩)).status = 404 ∧
      (putUser seedStore "7" (some ⟨0, "Zed", "", false⟩)).store = seedStore) ∧
    ((putUser seedStore "9223372036854775808" (some ⟨0, "Zed", "", false⟩)).status = 400 ∧
      (putUser seedStore "9223372036854775808" (some ⟨0, "Zed", "", false⟩)).store
        = seedStore) ∧
    ((putUser seedStore "-1" (some ⟨0, "Zed", "", false⟩)).status = 404 ∧
      (putUser seedStore "-1" (some ⟨0, "Zed", "", false⟩)).store = seedStore) :=
  ⟨(putUser_not_found seedStore "7" 7 ⟨0, "Zed", "", false⟩ ⟨by decide, by decide⟩).1
      (by decide) (Or.inl (by decide)),
    (putUser_not_found seedStore "9223372036854775808" 9223372036854775808
      ⟨0, "Zed", "", false⟩ ⟨by decide, by decide⟩).2.1 (by decide),
    (putUser_not_found seedStore "7" 7 ⟨0, "Zed", "", false⟩ ⟨by decide, by decide⟩).2.2
      "-1" (-1) (by decide) (Or.inl (by decide))⟩

/-- C15, as stated, fails: `9223372036854775808` (that is `2^63`) is an id of the
unsigned 64-bit range written in decimal and is no key of the seeded store, yet
`GET /user`, `PUT /user/:id` (non-empty name) and `DELETE /user/:id` answer 400,
not 404. -/
theorem decimal_id_above_int64_bad_request :
    DecimalOf "9223372036854775808" 9223372036854775808 ∧
    9223372036854775808 < 18446744073709551616 ∧
    storeGet seedStore 9223372036854775808 = none ∧
    (getUser seedStore "9223372036854775808").status = 400 ∧
    (putUser seedStore "9223372036854775808" (some ⟨0, "Zed", "", false⟩)).status = 400 ∧
    (deleteUser seedStore "9223372036854775808").status = 400 := by
  refine ⟨⟨by decide, by decide⟩, by decide, by decide, by decide, by decide, by decide⟩

/-- C15, amended. The id is parsed as a signed 64-bit integer: for an id written
in decimal with value `n < 2^63` that is not the key of a non-deleted record,
`GET /user`, `PUT /user/:id` (well-formed body, non-empty name) and
`DELETE /user/:id` answer 404; for an id written in decimal with value
`n ≥ 2^63` they answer 400; and for any id string they answer 400 only when the
id is missing or does not parse as a signed 64-bit base-10 integer. -/
theorem decimal_id_status (ds : DataStore) (id : String) (n : Nat) (usrIn : User)
    (hdec : DecimalOf id n) (hname : usrIn.Name ≠ "") :
    (n < two63 →
      (storeGet ds n = none ∨ ∃ u : User, storeGet ds n = some u ∧ u.Delete = true) →
      (getUser ds id).status = 404 ∧ (putUser ds id (some usrIn)).status = 404 ∧
      (deleteUser ds id).status = 404) ∧
    (two63 ≤ n →
      (getUser ds id).status = 400 ∧ (putUser ds id (some usrIn)).status = 400 ∧
      (deleteUser ds id).status = 400) ∧
    (∀ id2 : String,
      ((getUser ds id2).status = 400 ↔ ParseInt id2 = none) ∧
      ((putUser ds id2 (some usrIn)).status = 400 ↔ ParseInt id2 = none) ∧
      ((deleteUser ds id2).status = 400 ↔ ParseInt id2 = none)) := by
  have hp := ParseInt_of_DecimalOf hdec
  refine ⟨?_, ?_, ?_⟩
  · intro hlt hmiss
    have hlt' : ¬ n ≥ 9223372036854775808 := by unfold two63 at hlt; omega
    rw [if_neg hlt'] at hp
    have hkey := uint64_ofNat n hlt
    rw [← hkey] at hmiss
    obtain ⟨hg, hput, hd⟩ := not_found_of_missing ds id n hp hmiss
    exact ⟨hg.1, (hput usrIn).1, hd.1⟩
  · intro hge
    have hge' : n ≥ 9223372036854775808 := by unfold two63 at hge; omega
    rw [if_pos hge'] at hp
    exact ⟨(getUser_status_400_iff ds id).mpr hp,
      (putUser_status_400_iff ds id usrIn hname).mpr hp,
      (deleteUser_status_400_iff ds id).mpr hp⟩
  · intro id2
    exact ⟨getUser_status_400_iff ds id2, putUser_status_400_iff ds id2 usrIn hname,
      deleteUser_status_400_iff ds id2⟩

theorem decimal_id_status_witness :
    (5 < two63 →
      (storeGet seedStore 5 = none ∨
        ∃ u : User, storeGet seedStore 5 = some u ∧ u.Delete = true) →
      (getUser seedStore "5").status = 404 ∧
      (putUser seedStore "5" (some ⟨0, "Zed", "", false⟩)).status = 404 ∧
      (deleteUser seedStore "5").status = 404) ∧
    (two63 ≤ 5 →
      (getUser seedStore "5").status = 400 ∧
      (putUser seedStore "5" (some ⟨0, "Zed", "", false⟩)).status = 400 ∧
      (deleteUser seedStore "5").status = 400) ∧
    (∀ id2 : String,
      ((getUser seedStore id2).status = 400 ↔ ParseInt id2 = none) ∧
      ((putUser seedStore id2 (some ⟨0, "Zed", "", false⟩)).status = 400 ↔
        ParseInt id2 = none) ∧
      ((deleteUser seedStore id2).status = 400 ↔ ParseInt id2 = none)) :=
  decimal_id_status seedStore "5" 5 ⟨0, "Zed", "", false⟩ ⟨by decide, by decide⟩ (by decide)

/-- C16. A non-numeric id is InvalidInput: for an id string that is empty or is
not a base-10 integer, `GET /user`, `PUT /user/:id` (whatever the body, bound or
not) and `DELETE /user/:id` answer 400 and leave the store unchanged. -/
theorem non_numeric_id_bad_request (ds : DataStore) (id : String) (bound : Option User)
    (hbad : id = "" ∨ isDecimalInteger id = false) :
    ((getUser ds id).status = 400 ∧ (getUser ds id).store = ds) ∧
    ((putUser ds id bound).status = 400 ∧ (putUser ds id bound).store = ds) ∧
    ((deleteUser ds id).status = 400 ∧ (deleteUser ds id).store = ds) := by
  have hnone : ParseInt id = none := by
    rcases hbad with rfl | h
    · rfl
    · exact ParseInt_eq_none_of_not_decimal h
  by_cases hid : id = ""
  · simp [getUser, putUser, deleteUser, hid]
  · simp [getUser, putUser, deleteUser, hid, hnone]

theorem non_numeric_id_bad_request_witness :
    ((getUser seedStore "abc").status = 400 ∧ (getUser seedStore "abc").store = seedStore) ∧
    ((putUser seedStore "abc" (some ⟨0, "Zed", "", false⟩)).status = 400 ∧
      (putUser seedStore "abc" (some ⟨0, "Zed", "", false⟩)).store = seedStore) ∧
    ((deleteUser seedStore "abc").status = 400 ∧
      (deleteUser seedStore "abc").store = seedStore) :=
  non_numeric_id_bad_request seedStore "abc" (some ⟨0, "Zed", "", false⟩) (Or.inr (by decide))

/-! ## The scenario of the specification and negative ids -/

/-- C17. End-to-end scenario on the seeded store: the create of Alice with email
`a@x.com` is answered 200 with id 3; `GET /user?id=3` is then answered 200 with
Alice; `DELETE /user/3` is answered 202; `GET /user?id=3` is then answered 404;
the create of Bob with the same email is answered 400 as a duplicate email, and
the store still holds exactly three records. `EqualFold` is assumed to equate
`a@x.com` with itself and with neither seeded email, as `strings.EqualFold`
does. -/
theorem scenario (EqualFold : String → String → Bool)
    (h1 : EqualFold "jhondoe@gmail.com" "a@x.com" = false)
    (h2 : EqualFold "janedow@gmail.com" "a@x.com" = false)
    (h3 : EqualFold "a@x.com" "a@x.com" = true) :
    (handle EqualFold seedStore
      (Request.createUser (some ⟨0, "Alice", "a@x.com", false⟩))).status = 200 ∧
    (handle EqualFold seedStore
      (Request.createUser (some ⟨0, "Alice", "a@x.com", false⟩))).body.Data
        = Payload.user ⟨3, "Alice", "a@x.com", false⟩ ∧
    (handle EqualFold
      (run EqualFold seedStore [Request.createUser (some ⟨0, "Alice", "a@x.com", false⟩)])
      (Request.getUser "3")).status = 200 ∧
    (handle EqualFold
      (run EqualFold seedStore [Request.createUser (some ⟨0, "Alice", "a@x.com", false⟩)])
      (Request.getUser "3")).body.Data = Payload.user ⟨3, "Alice", "a@x.com", false⟩ ∧
    (handle EqualFold
      (run EqualFold seedStore [Request.createUser (some ⟨0, "Alice", "a@x.com", false⟩),
        Request.getUser "3"])
      (Request.deleteUser "3")).status = 202 ∧
    (handle EqualFold
      (run EqualFold seedStore [Request.createUser (some ⟨0, "Alice", "a@x.com", false⟩),
        Request.getUser "3", Request.deleteUser "3"])
      (Request.getUser "3")).status = 404 ∧
    (handle EqualFold
      (run EqualFold seedStore [Request.createUser (some ⟨0, "Alice", "a@x.com", false⟩),
        Request.getUser "3", Request.deleteUser "3", Request.getUser "3"])
      (Request.createUser (some ⟨0, "Bob", "a@x.com", false⟩))).status = 400 ∧
    (handle EqualFold
      (run EqualFold seedStore [Request.createUser (some ⟨0, "Alice", "a@x.com", false⟩),
        Request.getUser "3", Request.deleteUser "3", Request.getUser "3"])
      (Request.createUser (some ⟨0, "Bob", "a@x.com", false⟩))).body.Message
        = "Email already registered " ∧
    storeLen (run EqualFold seedStore
      [Request.createUser (some ⟨0, "Alice", "a@x.com", false⟩),
        Request.getUser "3", Request.deleteUser "3", Request.getUser "3",
        Request.createUser (some ⟨0, "Bob", "a@x.com", false⟩)]) = 3 := by
  have hp : ParseInt "3" = some 3 := by decide
  have hu : uint64 3 = 3 := by decide
  have hne : ("3" : String) ≠ "" := by decide
  have hA : ¬ (("a@x.com" : String) = "" ∨ ("Alice" : String) = "") := by decide
  have hB : ¬ (("a@x.com" : String) = "" ∨ ("Bob" : String) = "") := by decide
  have hnext : uint64 (wrapInt64 ((storeLen seedStore : Int) + 1)) = 3 := by decide
  have s1 : (postUser EqualFold seedStore (some ⟨0, "Alice", "a@x.com", false⟩)) =
      { status := 200,
        body := { Message := "Success create user",
                  Data := Payload.user ⟨3, "Alice", "a@x.com", false⟩ },
        store := seedStore ++ [(3, ⟨3, "Alice", "a@x.com", false⟩)] } := by
    have hany : seedStore.any (fun p => EqualFold p.2.Email "a@x.com") = false := by
      simp [seedStore, h1, h2]
    simp only [postUser, hA, if_false, hany, hnext, Bool.false_eq_true]
    rfl
  have g1 : storeGet (seedStore ++ [(3, ⟨3, "Alice", "a@x.com", false⟩)]) 3
      = some ⟨3, "Alice", "a@x.com", false⟩ := by decide
  have s2 : getUser (seedStore ++ [(3, ⟨3, "Alice", "a@x.com", false⟩)]) "3" =
      { status := 200,
        body := { Message := "Success get user",
                  Data := Payload.user ⟨3, "Alice", "a@x.com", false⟩ },
        store := seedStore ++ [(3, ⟨3, "Alice", "a@x.com", false⟩)] } := by
    simp [getUser, hne, hp, hu, g1]
  have s3 : deleteUser (seedStore ++ [(3, ⟨3, "Alice", "a@x.com", false⟩)]) "3" =
      { status := 202,
        body := { Message := "Success delete user", Data := Payload.null },
        store := seedStore ++ [(3, ⟨3, "Alice", "a@x.com", true⟩)] } := by
    simp only [deleteUser, hne, if_false, hp, hu, g1, Bool.false_eq_true]
    rfl
  have g2 : storeGet (seedStore ++ [(3, ⟨3, "Alice", "a@x.com", true⟩)]) 3
      = some ⟨3, "Alice", "a@x.com", true⟩ := by decide
  have s4 : getUser (seedStore ++ [(3, ⟨3, "Alice", "a@x.com", true⟩)]) "3" =
      { status := 404,
        body := { Message := "User not found", Data := Payload.null },
        store := seedStore ++ [(3, ⟨3, "Alice", "a@x.com", true⟩)] } := by
    simp [getUser, hne, hp, hu, g2]
  have s5 : postUser EqualFold (seedStore ++ [(3, ⟨3, "Alice", "a@x.com", true⟩)])
      (some ⟨0, "Bob", "a@x.com", false⟩) =
      { status := 400,
        body := { Message := "Email already registered ", Data := Payload.null },
        store := seedStore ++ [(3, ⟨3, "Alice", "a@x.com", true⟩)] } := by
    have hany : (seedStore ++ [(3, (⟨3, "Alice", "a@x.com", true⟩ : User))]).any
        (fun p => EqualFold p.2.Email "a@x.com") = true := by
      simp [h3]
    simp only [postUser, hB, if_false, hany, if_true]
  simp only [run, handle, s1, s2, s3, s4, s5]
  refine ⟨trivial, trivial, trivial, trivial, trivial, trivial, trivial, trivial, ?_⟩
  rfl

theorem scenario_witness :
    (handle asciiEqualFold seedStore
      (Request.createUser (some ⟨0, "Alice", "a@x.com", false⟩))).status = 200 ∧
    (handle asciiEqualFold seedStore
      (Request.createUser (some ⟨0, "Alice", "a@x.com", false⟩))).body.Data
        = Payload.user ⟨3, "Alice", "a@x.com", false⟩ ∧
    (handle asciiEqualFold
      (run asciiEqualFold seedStore [Request.createUser (some ⟨0, "Alice", "a@x.com", false⟩)])
      (Request.getUser "3")).status = 200 ∧
    (handle asciiEqualFold
      (run asciiEqualFold seedStore [Request.createUser (some ⟨0, "Alice", "a@x.com", false⟩)])
      (Request.getUser "3")).body.Data = Payload.user ⟨3, "Alice", "a@x.com", false⟩ ∧
    (handle asciiEqualFold
      (run asciiEqualFold seedStore [Request.createUser (some ⟨0, "Alice", "a@x.com", false⟩),
        Request.getUser "3"])
      (Request.deleteUser "3")).status = 202 ∧
    (handle asciiEqualFold
      (run asciiEqualFold seedStore [Request.createUser (some ⟨0, "Alice", "a@x.com", false⟩),
        Request.getUser "3", Request.deleteUser "3"])
      (Request.getUser "3")).status = 404 ∧
    (handle asciiEqualFold
      (run asciiEqualFold seedStore [Request.createUser (some ⟨0, "Alice", "a@x.com", false⟩),
        Request.getUser "3", Request.deleteUser "3", Request.getUser "3"])
      (Request.createUser (some ⟨0, "Bob", "a@x.com", false⟩))).status = 400 ∧
    (handle asciiEqualFold
      (run asciiEqualFold seedStore [Request.createUser (some ⟨0, "Alice", "a@x.com", false⟩),
        Request.getUser "3", Request.deleteUser "3", Request.getUser "3"])
      (Request.createUser (some ⟨0, "Bob", "a@x.com", false⟩))).body.Message
        = "Email already registered " ∧
    storeLen (run asciiEqualFold seedStore
      [Request.createUser (some ⟨0, "Alice", "a@x.com", false⟩),
        Request.getUser "3", Request.deleteUser "3", Request.getUser "3",
        Request.createUser (some ⟨0, "Bob", "a@x.com", false⟩)]) = 3 :=
  scenario asciiEqualFold (by decide) (by decide) (by decide)

theorem Inv.absent_above {ds : DataStore} (h : Inv ds) {k : Nat} (hk : storeLen ds < k) :
    storeGet ds k = none := by
  cases hget : storeGet ds k with
  | none => rfl
  | some u =>
    have := h.key_le hget
    omega

/-- C19. A negative id never reaches a record: the id is parsed as a signed
64-bit integer and converted to `uint64` with wrap-around, `-n` becoming
`2^64 - n`. In a store reachable from the seed that holds fewer than `2^63`
records, for the id string `-` followed by the decimal digits of `n`, with
`1 ≤ n ≤ 2^63`, the parse succeeds with `-n`, and `GET /user`,
`PUT /user/:id` (any well-formed body) and `DELETE /user/:id` answer 404 and
leave the store unchanged. -/
theorem negative_id_not_found (EqualFold : String → String → Bool) (ds : DataStore)
    (s : String) (n : Nat)
    (hreach : Reachable EqualFold ds) (hlen : storeLen ds < two63)
    (hdec : DecimalOf s n) (hpos : 1 ≤ n) (hmax : n ≤ two63) :
    ParseInt ("-" ++ s) = some (-(n : Int)) ∧
    uint64 (-(n : Int)) = 18446744073709551616 - n ∧
    ((getUser ds ("-" ++ s)).status = 404 ∧ (getUser ds ("-" ++ s)).store = ds) ∧
    (∀ usrIn : User, (putUser ds ("-" ++ s) (some usrIn)).status = 404 ∧
      (putUser ds ("-" ++ s) (some usrIn)).store = ds) ∧
    ((deleteUser ds ("-" ++ s)).status = 404 ∧ (deleteUser ds ("-" ++ s)).store = ds) := by
  have hinv := hreach.inv hlen
  have hp := ParseInt_neg_of_DecimalOf hdec
  have hle : ¬ n > 9223372036854775808 := by unfold two63 at hmax; omega
  rw [if_neg hle] at hp
  have hkey := uint64_neg n hpos hmax
  have habs : storeGet ds (uint64 (-(n : Int))) = none := by
    apply hinv.absent_above
    rw [hkey]
    unfold two63 at hlen hmax
    omega
  exact ⟨hp, hkey, not_found_of_missing ds ("-" ++ s) (-(n : Int)) hp (Or.inl habs)⟩

theorem negative_id_not_found_witness :
    ParseInt ("-" ++ "1") = some (-((1 : Nat) : Int)) ∧
    uint64 (-((1 : Nat) : Int)) = 18446744073709551616 - 1 ∧
    ((getUser seedStore ("-" ++ "1")).status = 404 ∧
      (getUser seedStore ("-" ++ "1")).store = seedStore) ∧
    (∀ usrIn : User, (putUser seedStore ("-" ++ "1") (some usrIn)).status = 404 ∧
      (putUser seedStore ("-" ++ "1") (some usrIn)).store = seedStore) ∧
    ((deleteUser seedStore ("-" ++ "1")).status = 404 ∧
      (deleteUser seedStore ("-" ++ "1")).store = seedStore) :=
  negative_id_not_found asciiEqualFold seedStore "1" 1 ⟨[], rfl⟩ (by decide)
    ⟨by decide, by decide⟩ (by decide) (by decide)

end CleanArc
